import Mathlib

/-!
Verification of the backtracking SSA register allocator (`src/ion/mod.rs`)
against its natural-language specification.

The Rust code is shallowly embedded: arenas become `List`s of records,
intrusive singly-linked chains (`next_in_bundle`, `next_use`) become the
corresponding `List` of records/indices, the overlap-keyed `BTreeMap` becomes
an association list with the same comparator, and each mutating method
becomes a function from the environment record to an updated environment
record.  Machine integers (`u32`) are modelled as `Nat`; the bit-packing of
`spill_weight_and_props` is reproduced with `Nat.lor` / `Nat.land`.

The file has two parts: first all definitions (the embedding), then the
theorems about them.
-/

set_option maxHeartbeats 1000000

namespace RegAlloc

/-! # Part 1: the embedding -/

/-! ## Program points, code ranges, overlap-keyed comparators -/

/-- Modelled from the spec: `ProgPoint` lives in the crate root, which is not
part of the sources given; the spec says "A pair (instruction index, position
∈ {Before, After}) totally ordered by instruction then position".
`isAfter = false` is `Before`, `isAfter = true` is `After`. -/
structure ProgPoint where
  inst : Nat
  isAfter : Bool
deriving DecidableEq, Repr

/-- Modelled from the spec: the total order "by instruction then position" is
realized, as in the crate root, by the packed index `2 * inst + position`. -/
def ProgPoint.toIndex (p : ProgPoint) : Nat :=
  2 * p.inst + (if p.isAfter then 1 else 0)

def ProgPoint.before (i : Nat) : ProgPoint := ⟨i, false⟩

def ProgPoint.after (i : Nat) : ProgPoint := ⟨i, true⟩

instance : Inhabited ProgPoint := ⟨ProgPoint.before 0⟩

/-- Modelled from the spec: decode a packed program-point index. -/
def ProgPoint.fromIndex (i : Nat) : ProgPoint :=
  ⟨i / 2, i % 2 == 1⟩

/-- Modelled from the spec: the next program point in the total order. -/
def ProgPoint.next (p : ProgPoint) : ProgPoint :=
  ProgPoint.fromIndex (p.toIndex + 1)

/-- Modelled from the spec: the previous program point in the total order. -/
def ProgPoint.prev (p : ProgPoint) : ProgPoint :=
  ProgPoint.fromIndex (p.toIndex - 1)

/-- `CodeRange`: a range from `from` (inclusive) to `to` (exclusive).
The Rust field names `from`/`to` are Lean keywords, hence `rfrom`/`rto`. -/
structure CodeRange where
  rfrom : ProgPoint
  rto : ProgPoint
deriving DecidableEq, Repr

instance : Inhabited CodeRange := ⟨⟨default, default⟩⟩

/-- `CodeRange::overlaps`: `other.to > self.from && other.from < self.to`. -/
def CodeRange.overlaps (a other : CodeRange) : Bool :=
  other.rto.toIndex > a.rfrom.toIndex && other.rfrom.toIndex < a.rto.toIndex

/-- `CodeRange::is_empty`: `self.from == self.to`. -/
def CodeRange.isEmptyRange (a : CodeRange) : Bool :=
  a.rfrom = a.rto

/-- `Ord for CodeRange`: `Less` if `self.to <= other.from`, `Greater` if
`self.from >= other.to`, otherwise `Equal`. -/
def CodeRange.cmp (a other : CodeRange) : Ordering :=
  if a.rto.toIndex ≤ other.rfrom.toIndex then .lt
  else if a.rfrom.toIndex ≥ other.rto.toIndex then .gt
  else .eq

/-- `LiveRangeKey`: the key type of the overlap-keyed ordered maps; holds the
`u32` indices of the two program points. -/
structure LiveRangeKey where
  kfrom : Nat
  kto : Nat
deriving DecidableEq, Repr

instance : Inhabited LiveRangeKey := ⟨⟨0, 0⟩⟩

/-- `LiveRangeKey::from_range`. -/
def LiveRangeKey.fromRange (range : CodeRange) : LiveRangeKey :=
  ⟨range.rfrom.toIndex, range.rto.toIndex⟩

/-- `PartialEq for LiveRangeKey`: `self.to > other.from && self.from < other.to`. -/
def LiveRangeKey.keyEq (a other : LiveRangeKey) : Bool :=
  a.kto > other.kfrom && a.kfrom < other.kto

/-- `Ord for LiveRangeKey`: `Less` if `self.to <= other.from`, `Greater` if
`self.from >= other.to`, otherwise `Equal`. -/
def LiveRangeKey.cmp (a other : LiveRangeKey) : Ordering :=
  if a.kto ≤ other.kfrom then .lt
  else if a.kfrom ≥ other.kto then .gt
  else .eq

/-! ## Operands, physical registers, requirements -/

/-- Modelled from the spec: register classes (crate root). -/
inductive RegClass where
  | int
  | float
deriving DecidableEq, Repr

/-- Modelled from the spec: a physical register (crate root) carries a
hardware encoding and a class; `index()` packs them into a flat index. -/
structure PReg where
  hwEnc : Nat
  cls : RegClass
deriving DecidableEq, Repr

instance : Inhabited PReg := ⟨⟨0, .int⟩⟩

def RegClass.index (c : RegClass) : Nat :=
  match c with
  | .int => 0
  | .float => 1

def PReg.index (p : PReg) : Nat :=
  p.cls.index * 32 + p.hwEnc

def PReg.class (p : PReg) : RegClass := p.cls

/-- Modelled from the spec: operand kind (crate root). -/
inductive OperandKind where
  | defOp
  | useOp
deriving DecidableEq, Repr

/-- Modelled from the spec: operand position (crate root). -/
inductive OperandPos where
  | before
  | both
  | after
deriving DecidableEq, Repr

/-- Modelled from the spec: operand policy (crate root). -/
inductive OperandPolicy where
  | any
  | reg
  | fixedReg (preg : PReg)
  | reuse (i : Nat)
  | stack
deriving DecidableEq, Repr

/-- Modelled from the spec: an operand (crate root) references a vreg with
class, kind, position and policy constraints. -/
structure Operand where
  vreg : Nat
  cls : RegClass
  kind : OperandKind
  pos : OperandPos
  policy : OperandPolicy
deriving DecidableEq, Repr

instance : Inhabited Operand := ⟨⟨0, .int, .useOp, .before, .any⟩⟩

def Operand.class (op : Operand) : RegClass := op.cls

/-- `Requirement` (ion/mod.rs). -/
inductive Requirement where
  | fixed (preg : PReg)
  | register (cls : RegClass)
  | any (cls : RegClass)
deriving DecidableEq, Repr

/-- `Requirement::class`. -/
def Requirement.class (r : Requirement) : RegClass :=
  match r with
  | .fixed preg => preg.class
  | .register cls => cls
  | .any cls => cls

/-- `Requirement::merge`: class mismatch gives `None`; `Any` is the identity;
`Register ⊔ Fixed = Fixed`; `Register ⊔ Register = Register`; equal `Fixed`s
merge, different ones conflict (`None`). The match arms are in source order. -/
def Requirement.merge (self other : Requirement) : Option Requirement :=
  if self.class ≠ other.class then none
  else
    match self, other with
    | other', .any _ => some other'
    | .any _, other' => some other'
    | .register _, .fixed preg => some (.fixed preg)
    | .fixed preg, .register _ => some (.fixed preg)
    | .register c, .register _ => some (.register c)
    | .fixed a, .fixed b => if a = b then some (.fixed a) else none

/-- `Requirement::from_operand`. -/
def Requirement.fromOperand (op : Operand) : Requirement :=
  match op.policy with
  | .fixedReg preg => .fixed preg
  | .reg => .register op.class
  | .reuse _ => .register op.class
  | _ => .any op.class

/-! ## Liveness: position of a `Use` (compute_liveness, operand loop) -/

/-- The `reused_input` scan at the top of the per-instruction operand loop of
`compute_liveness`: the first operand with a `Reuse(i)` policy yields `i`. -/
def reusedInputIdx (ops : List Operand) : Option Nat :=
  ops.findSome? fun op =>
    match op.policy with
    | .reuse i => some i
    | _ => none

/-- The program point recorded for the `Use` operand in slot `slot` of an
instruction (`compute_liveness`, `OperandKind::Use` arm): `Before` maps to
`before(inst)`, `Both`/`After` to `after(inst)`; then the position is forced
to `after(inst)` if the instruction has a reused input and this is not it;
then branches force the position to the block's exit point. -/
def usePos (ops : List Operand) (slot : Nat) (isBranch : Bool)
    (blockExit : ProgPoint) (inst : Nat) : ProgPoint :=
  let operand := ops.getD slot default
  let pos : ProgPoint :=
    match operand.pos with
    | .before => ProgPoint.before inst
    | .both => ProgPoint.after inst
    | .after => ProgPoint.after inst
  let pos : ProgPoint :=
    match reusedInputIdx ops with
    | some t => if t ≠ slot then ProgPoint.after inst else pos
    | none => pos
  if isBranch then blockExit else pos

/-! ## Edge-move placement (apply_allocations_and_insert_moves) -/

/-- `InsertMovePrio` (ion/mod.rs), with the derived variant order. -/
inductive InsertMovePrio where
  | inEdgeMoves
  | blockParam
  | regular
  | multiFixedReg
  | reusedInput
  | outEdgeMoves
deriving DecidableEq, Repr

/-- The derived `Ord` order on `InsertMovePrio` is the declaration order. -/
def InsertMovePrio.toNat (p : InsertMovePrio) : Nat :=
  match p with
  | .inEdgeMoves => 0
  | .blockParam => 1
  | .regular => 2
  | .multiFixedReg => 3
  | .reusedInput => 4
  | .outEdgeMoves => 5

/-- The CFG data consumed by the edge-move placement decision: a `Function`
(crate root) exposing per-block instruction lists, successor and predecessor
lists, the entry block and the `is_ret` test. Blocks and instructions are
flat indices. -/
structure CfgFunc where
  blockInsnsList : List (List Nat)
  blockSuccsList : List (List Nat)
  blockPredsList : List (List Nat)
  entryBlock : Nat
  isRetList : List Nat
deriving Repr

def CfgFunc.blockInsns (f : CfgFunc) (b : Nat) : List Nat :=
  f.blockInsnsList.getD b []

def CfgFunc.blockSuccs (f : CfgFunc) (b : Nat) : List Nat :=
  f.blockSuccsList.getD b []

def CfgFunc.blockPreds (f : CfgFunc) (b : Nat) : List Nat :=
  f.blockPredsList.getD b []

def CfgFunc.isRet (f : CfgFunc) (i : Nat) : Bool :=
  f.isRetList.contains i

/-- The edge-move placement decision of
`apply_allocations_and_insert_moves` for a matched half-move group on the
CFG edge `(fromBlock, toBlock)`: compute `from_outs` and `to_ins`, place at
`after(from_last_insn)` with `OutEdgeMoves` when `to_ins > 1 && from_outs <= 1`,
else at `before(to_first_insn)` with `InEdgeMoves` when `to_ins <= 1`,
else fail (`panic!`, critical edge), modelled as `none`. -/
def edgeMovePlacement (f : CfgFunc) (fromBlock toBlock : Nat) :
    Option (ProgPoint × InsertMovePrio) :=
  let fromLastInsn := (f.blockInsns fromBlock).getLastD 0
  let toFirstInsn := (f.blockInsns toBlock).headD 0
  let fromIsRet := f.isRet fromLastInsn
  let toIsEntry := f.entryBlock = toBlock
  let fromOuts := (f.blockSuccs fromBlock).length + (if fromIsRet then 1 else 0)
  let toIns := (f.blockPreds toBlock).length + (if toIsEntry then 1 else 0)
  if toIns > 1 ∧ fromOuts ≤ 1 then
    some (ProgPoint.after fromLastInsn, .outEdgeMoves)
  else if toIns ≤ 1 then
    some (ProgPoint.before toFirstInsn, .inEdgeMoves)
  else
    none

/-! ## Arena records (ion/mod.rs data model) -/

/-- `define_index!` indices are `u32` with `u32::MAX` as the invalid
sentinel. -/
def invalidIndex : Nat := 4294967295

def idxIsValid (i : Nat) : Bool := i != invalidIndex

/-- Modelled from the spec: `Allocation` (crate root) is none, a register,
or a stack slot. -/
inductive Alloc where
  | none
  | reg (preg : PReg)
  | stack (slot : Nat)
deriving DecidableEq, Repr

/-- `Allocation::as_reg().is_some()`. -/
def Alloc.isReg (a : Alloc) : Bool :=
  match a with
  | .reg _ => true
  | _ => false

/-- The preg arena index of a register allocation (0 otherwise); used to
phrase hypotheses without an existential over `PReg`. -/
def Alloc.pregIndex (a : Alloc) : Nat :=
  match a with
  | .reg p => p.index
  | _ => 0

/-- `Use` (arena record): operand, position, operand slot. The `next_use`
chain appears as the containing live range's `uses` list. -/
structure UseRec where
  operand : Operand
  pos : ProgPoint
  slot : Nat
deriving DecidableEq, Repr

/-- `Def` (arena record). -/
structure DefRec where
  operand : Operand
  pos : ProgPoint
  slot : Nat
deriving DecidableEq, Repr

/-- `LiveRange`: the code range, the owning vreg (invalid index = fixed
clobber reservation), the owning bundle, the cached `uses_spill_weight`, the
`first_use`/`next_use` chain as a list, and the optional def (`def` is an
index into the defs arena; `none` models the invalid index). -/
structure LiveRangeRec where
  range : CodeRange
  vreg : Nat
  bundle : Nat
  usesSpillWeight : Nat
  uses : List UseRec
  defRec : Option DefRec
deriving DecidableEq, Repr

instance : Inhabited LiveRangeRec := ⟨⟨default, 0, 0, 0, [], Option.none⟩⟩

/-- `LiveBundle`: the `first_range`/`next_in_bundle` chain as a list of
live-range arena indices, the spillset link, the current allocation, the
priority, and the packed `spill_weight_and_props` word. -/
structure LiveBundleRec where
  ranges : List Nat
  spillset : Nat
  allocation : Alloc
  prio : Nat
  spillWeightAndProps : Nat
deriving DecidableEq, Repr

instance : Inhabited LiveBundleRec := ⟨⟨[], 0, .none, 0, 0⟩⟩

/-- `LiveBundle::set_cached_spill_weight_and_props`:
`spill_weight | (minimal ? 1<<31 : 0) | (fixed ? 1<<30 : 0)`. -/
def setCachedSpillWeightAndProps (b : LiveBundleRec) (spillWeight : Nat)
    (minimal fixed : Bool) : LiveBundleRec :=
  let packed :=
    Nat.lor spillWeight
      (Nat.lor (if minimal then 2 ^ 31 else 0) (if fixed then 2 ^ 30 else 0))
  { b with spillWeightAndProps := packed }

/-- `LiveBundle::cached_minimal`: `self.spill_weight_and_props & (1 << 31) != 0`. -/
def LiveBundleRec.cachedMinimal (b : LiveBundleRec) : Bool :=
  Nat.land b.spillWeightAndProps (2 ^ 31) != 0

/-- `LiveBundle::cached_fixed`: `self.spill_weight_and_props & (1 << 30) != 0`. -/
def LiveBundleRec.cachedFixed (b : LiveBundleRec) : Bool :=
  Nat.land b.spillWeightAndProps (2 ^ 30) != 0

/-- `LiveBundle::cached_spill_weight`: as written in the source,
`self.spill_weight_and_props & !((1 << 30) - 1)`, i.e. a `u32` mask keeping
bits 30 and 31 (`0xC0000000`). -/
def LiveBundleRec.cachedSpillWeight (b : LiveBundleRec) : Nat :=
  Nat.land b.spillWeightAndProps 3221225472

/-- `SpillSet` (the fields read by the modelled operations). -/
structure SpillSetRec where
  size : Nat
  cls : RegClass
  regHint : Option PReg
deriving DecidableEq, Repr

instance : Inhabited SpillSetRec := ⟨⟨0, .int, Option.none⟩⟩

/-- `PRegData`: the physical register and its occupancy map. The
`BTreeMap<LiveRangeKey, LiveRangeIndex>` is modelled as an association list
in key order. -/
structure PRegDataRec where
  reg : PReg
  allocations : List (LiveRangeKey × Nat)
deriving DecidableEq, Repr

instance : Inhabited PRegDataRec := ⟨⟨default, []⟩⟩

/-- The slice of `Env` threaded through the allocation-loop operations
modelled here. `queue` lists the `(prio, bundle)` entries of the priority
queue (the heap is used as a multiset). `regsByClass` is the machine
environment's per-class register list. -/
structure EnvRec where
  ranges : List LiveRangeRec
  bundles : List LiveBundleRec
  spillsets : List SpillSetRec
  pregs : List PRegDataRec
  regsByClass : List (List PReg)
  queue : List (Nat × Nat)
  spilledBundles : List Nat
deriving DecidableEq, Repr

def EnvRec.rangeAt (env : EnvRec) (i : Nat) : LiveRangeRec :=
  env.ranges.getD i default

def EnvRec.bundleAt (env : EnvRec) (i : Nat) : LiveBundleRec :=
  env.bundles.getD i default

def EnvRec.spillsetAt (env : EnvRec) (i : Nat) : SpillSetRec :=
  env.spillsets.getD i default

def EnvRec.pregAt (env : EnvRec) (i : Nat) : PRegDataRec :=
  env.pregs.getD i default

/-! ## The overlap-keyed ordered map (BTreeMap with `LiveRangeKey` keys) -/

/-- `BTreeMap::get` under the overlap comparator returns the value of an
entry whose key compares `Equal` (i.e. overlaps the probe); on the
association-list model, the first such entry. -/
def btreeGet (m : List (LiveRangeKey × Nat)) (k : LiveRangeKey) : Option Nat :=
  (m.find? fun e => LiveRangeKey.cmp k e.1 == .eq).map (·.2)

/-- `BTreeMap::insert` under the overlap comparator: replace the first
`Equal` (overlapping) entry, else insert in key order. -/
def btreeInsert (m : List (LiveRangeKey × Nat)) (k : LiveRangeKey) (v : Nat) :
    List (LiveRangeKey × Nat) :=
  match m with
  | [] => [(k, v)]
  | e :: rest =>
    match LiveRangeKey.cmp k e.1 with
    | .lt => (k, v) :: e :: rest
    | .eq => (k, v) :: rest
    | .gt => e :: btreeInsert rest k v

/-- `BTreeMap::remove` under the overlap comparator: drop the first
`Equal` (overlapping) entry. -/
def btreeRemove (m : List (LiveRangeKey × Nat)) (k : LiveRangeKey) :
    List (LiveRangeKey × Nat) :=
  match m with
  | [] => []
  | e :: rest =>
    if LiveRangeKey.cmp k e.1 = .eq then rest
    else e :: btreeRemove rest k

/-! ## try_to_allocate_bundle_to_reg / evict_bundle -/

/-- `AllocRegResult` (ion/mod.rs). -/
inductive AllocRegResult where
  | allocated (alloc : Alloc)
  | conflict (bundles : List Nat)
  | conflictWithFixed
deriving DecidableEq, Repr

/-- The conflict-scanning loop of `try_to_allocate_bundle_to_reg`: walk the
bundle's ranges; for each, look up an overlapping entry in the preg's
occupancy map; an occupant with a valid vreg contributes its owning bundle
to `conflicts` (deduplicated); an occupant with an invalid vreg (fixed
clobber reservation) aborts the scan (`none` models the early
`ConflictWithFixed` return). -/
def scanConflicts (env : EnvRec) (m : List (LiveRangeKey × Nat)) :
    List Nat → List Nat → Option (List Nat)
  | [], conflicts => some conflicts
  | ri :: rest, conflicts =>
    let range := env.rangeAt ri
    match btreeGet m (LiveRangeKey.fromRange range.range) with
    | some pregRange =>
      if idxIsValid (env.rangeAt pregRange).vreg then
        let conflictBundle := (env.rangeAt pregRange).bundle
        scanConflicts env m rest
          (if conflicts.contains conflictBundle then conflicts
           else conflicts ++ [conflictBundle])
      else
        Option.none
    | Option.none => scanConflicts env m rest conflicts

/-- `self.bundles[bundle.index()].allocation = a`. -/
def setBundleAlloc (env : EnvRec) (bundle : Nat) (a : Alloc) : EnvRec :=
  { env with
    bundles := env.bundles.set bundle { env.bundleAt bundle with allocation := a } }

/-- The success path of `Env::try_to_allocate_bundle_to_reg`: record the
allocation on the bundle and insert every range of the bundle into the
preg's occupancy map. -/
def allocSuccessEnv (env : EnvRec) (bundle reg : Nat) : EnvRec :=
  let m := (env.pregAt reg).allocations
  let preg := (env.pregAt reg).reg
  let env1 := setBundleAlloc env bundle (.reg preg)
  let m1 := (env1.bundleAt bundle).ranges.foldl
    (fun mm ri =>
      btreeInsert mm (LiveRangeKey.fromRange (env1.rangeAt ri).range) ri) m
  { env1 with
    pregs := env1.pregs.set reg { env1.pregAt reg with allocations := m1 } }

/-- `Env::try_to_allocate_bundle_to_reg`: scan the bundle's ranges against
the preg's occupancy map; on a fixed-reservation hit return
`ConflictWithFixed`, on a non-empty conflict set return `Conflict`;
otherwise record the allocation and the occupancy
(`allocSuccessEnv`). -/
def tryToAllocateBundleToReg (env : EnvRec) (bundle reg : Nat) :
    AllocRegResult × EnvRec :=
  let m := (env.pregAt reg).allocations
  match scanConflicts env m (env.bundleAt bundle).ranges [] with
  | Option.none => (.conflictWithFixed, env)
  | some conflicts =>
    if conflicts.length > 0 then (.conflict conflicts, env)
    else (.allocated (.reg (env.pregAt reg).reg), allocSuccessEnv env bundle reg)

/-- `Env::evict_bundle`: a bundle whose allocation is not a register is left
untouched (early return); otherwise clear its allocation, remove each of its
ranges from the preg's occupancy map, and re-insert it into the allocation
queue at its priority. -/
def evictBundle (env : EnvRec) (bundle : Nat) : EnvRec :=
  match (env.bundleAt bundle).allocation with
  | .reg preg =>
    let pregIdx := preg.index
    let env1 := setBundleAlloc env bundle .none
    let m1 := (env1.bundleAt bundle).ranges.foldl
      (fun mm ri => btreeRemove mm (LiveRangeKey.fromRange (env1.rangeAt ri).range))
      ((env1.pregAt pregIdx).allocations)
    let env2 := { env1 with
      pregs := env1.pregs.set pregIdx
        { env1.pregAt pregIdx with allocations := m1 } }
    { env2 with queue := env2.queue ++ [((env2.bundleAt bundle).prio, bundle)] }
  | _ => env

/-- `Env::bundle_spill_weight`. -/
def EnvRec.bundleSpillWeight (env : EnvRec) (bundle : Nat) : Nat :=
  (env.bundleAt bundle).cachedSpillWeight

/-- `Env::maximum_spill_weight_in_bundle_set`. -/
def maximumSpillWeightInBundleSet (env : EnvRec) (bundles : List Nat) : Nat :=
  (bundles.map fun b => (env.bundleAt b).cachedSpillWeight).foldr max 0

/-! ## recompute_bundle_properties -/

/-- Does an operand policy read `FixedReg(_)`? -/
def isFixedRegPolicy (p : OperandPolicy) : Bool :=
  match p with
  | .fixedReg _ => true
  | _ => false

/-- The `minimal`/`fixed` computation of `Env::recompute_bundle_properties`,
derived from the bundle's FIRST range only: an invalid vreg makes it a fixed
reservation (both flags set); otherwise `fixed` is set iff the first range's
def or one of the first range's uses has a `FixedReg` policy, and `minimal`
iff the first range is the only one in the bundle (`next_in_bundle`
invalid, i.e. an empty tail) and it spans a single instruction
(`from.inst == to.prev().inst`). -/
def recomputeMinimalFixed (env : EnvRec) (bundle : Nat) : Bool × Bool :=
  let bundledata := env.bundleAt bundle
  let firstRange := env.rangeAt (bundledata.ranges.headD invalidIndex)
  if !(idxIsValid firstRange.vreg) then (true, true)
  else
    let fixedFromDef :=
      match firstRange.defRec with
      | some d => isFixedRegPolicy d.operand.policy
      | Option.none => false
    let fixed :=
      fixedFromDef || firstRange.uses.any fun u => isFixedRegPolicy u.operand.policy
    let minimal :=
      bundledata.ranges.tail.isEmpty &&
        (firstRange.range.rfrom.inst == firstRange.range.rto.prev.inst)
    (minimal, fixed)

/-- The spill-weight computation of `Env::recompute_bundle_properties`:
`2_000_000` for minimal fixed bundles, `1_000_000` for minimal non-fixed
ones; otherwise the sum over all ranges of `uses_spill_weight` plus `2000`
per def, divided by the priority when it is positive. -/
def recomputeSpillWeight (env : EnvRec) (bundle : Nat) (minimal fixed : Bool) : Nat :=
  let bundledata := env.bundleAt bundle
  if minimal then (if fixed then 2000000 else 1000000)
  else
    let total := bundledata.ranges.foldl
      (fun acc ri =>
        let rd := env.rangeAt ri
        acc + (if rd.defRec.isSome then 2000 else 0) + rd.usesSpillWeight) 0
    if bundledata.prio > 0 then total / bundledata.prio else total

/-- `Env::recompute_bundle_properties`: compute `minimal`/`fixed` and the
spill weight, then store them in the bundle's packed word. -/
def recomputeBundleProperties (env : EnvRec) (bundle : Nat) : EnvRec :=
  let mf := recomputeMinimalFixed env bundle
  let spillWeight := recomputeSpillWeight env bundle mf.1 mf.2
  let newBundles :=
    env.bundles.set bundle
      (setCachedSpillWeightAndProps (env.bundleAt bundle) spillWeight mf.1 mf.2)
  { env with bundles := newBundles }

/-! ## process_bundle: probing and the retry-loop body -/

/-- The outcome of one register probe in `process_bundle`. -/
inductive ProbeResult where
  | allocatedStep (env : EnvRec)
  | spilledStep (env : EnvRec)
  | conflictsStep (cb : List Nat)
deriving DecidableEq, Repr

/-- `self.spillsets[self.bundles[bundle].spillset].reg_hint = Some(preg)`
(performed by `process_bundle` on every successful probe). -/
def setRegHint (env : EnvRec) (bundle : Nat) (preg : PReg) : EnvRec :=
  let ss := (env.bundleAt bundle).spillset
  { env with spillsets :=
      env.spillsets.set ss { env.spillsetAt ss with regHint := some preg } }

/-- The register-scanning loop of `process_bundle` (`Requirement::Register`
arm): run `count` more probe iterations starting at iteration `i`; the hint
register is probed first when present, then the class registers rotated by
the bundle index (skipping a repeat of the hint), tracking the conflict set
of lowest maximum spill weight across failed probes; fixed conflicts are
not considered. -/
def probeRegsLoop (env : EnvRec) (bundle : Nat) (regs : List PReg)
    (hint : Option PReg) (i : Nat) (lowest : Option (List Nat)) :
    Nat → ProbeResult
  | 0 => .conflictsStep (lowest.getD [])
  | count + 1 =>
    let nRegs := regs.length
    let pregChoice : Option PReg :=
      match i, hint with
      | 0, some h => some h
      | j + 1, some h =>
        let r := regs.getD ((j + bundle) % nRegs) default
        if r = h then Option.none else some r
      | j, Option.none => some (regs.getD ((j + bundle) % nRegs) default)
    match pregChoice with
    | Option.none => probeRegsLoop env bundle regs hint (i + 1) lowest count
    | some preg =>
      match tryToAllocateBundleToReg env bundle preg.index with
      | (.allocated a, env') =>
        .allocatedStep
          (match a with
           | .reg p => setRegHint env' bundle p
           | _ => env')
      | (.conflict cb, env') =>
        let lowest' :=
          match lowest with
          | Option.none => some cb
          | some cur =>
            if maximumSpillWeightInBundleSet env' cb <
                maximumSpillWeightInBundleSet env' cur then some cb
            else some cur
        probeRegsLoop env' bundle regs hint (i + 1) lowest' count
      | (.conflictWithFixed, env') =>
        probeRegsLoop env' bundle regs hint (i + 1) lowest count

/-- One register probe of `process_bundle` for requirement `req`: `Fixed`
probes only that preg (a fixed conflict yields the empty conflict set);
`Register` runs the scanning loop (`loop_count` is `n_regs + 1` when a hint
exists); `Any` appends the bundle to `spilled_bundles` (to be retried at
the end) and returns. -/
def probeStep (env : EnvRec) (bundle : Nat) (req : Requirement) : ProbeResult :=
  match req with
  | .fixed preg =>
    match tryToAllocateBundleToReg env bundle preg.index with
    | (.allocated a, env') =>
      .allocatedStep
        (match a with
         | .reg p => setRegHint env' bundle p
         | _ => env')
    | (.conflict cb, _) => .conflictsStep cb
    | (.conflictWithFixed, _) => .conflictsStep []
  | .register cls =>
    let regs := env.regsByClass.getD cls.index []
    let hint := (env.spillsetAt (env.bundleAt bundle).spillset).regHint
    let loopCount := if hint.isSome then regs.length + 1 else regs.length
    probeRegsLoop env bundle regs hint 0 Option.none loopCount
  | .any _ =>
    .spilledStep { env with spilledBundles := env.spilledBundles ++ [bundle] }

/-- The outcome of one iteration of `process_bundle`'s retry loop:
`done` — the loop returned (successful allocation, or requirement `Any`
pushed the bundle onto `spilled_bundles`); `retry` — the conflicting bundles
were evicted and the loop runs again on the updated state; `toSplit` — the
loop breaks and `process_bundle` falls through to
`split_and_requeue_bundle`, passing the recorded first conflicting bundle
(the invalid index when none was recorded). -/
inductive IterStep where
  | done (env : EnvRec)
  | retry (env : EnvRec)
  | toSplit (env : EnvRec) (firstConflict : Nat)
deriving DecidableEq, Repr

/-- One iteration of `process_bundle`'s allocation loop (`attempts` is the
already-incremented attempt counter): a `None` requirement breaks to the
split path; otherwise probe; on a conflict set, break to the split path
when `attempts >= 2` and the bundle is not (cached) minimal, or when the
set is empty (fixed conflict), or — after recording the first conflicting
bundle — when the set's maximum spill weight is `>=` this bundle's;
otherwise evict every conflicting bundle and retry. -/
def processBundleIter (env : EnvRec) (bundle : Nat) (req : Option Requirement)
    (attempts : Nat) : IterStep :=
  match req with
  | Option.none => .toSplit env invalidIndex
  | some r =>
    match probeStep env bundle r with
    | .allocatedStep env' => .done env'
    | .spilledStep env' => .done env'
    | .conflictsStep cb =>
      if attempts ≥ 2 && !(env.bundleAt bundle).cachedMinimal then
        .toSplit env invalidIndex
      else if cb.isEmpty then
        .toSplit env invalidIndex
      else if maximumSpillWeightInBundleSet env cb ≥ env.bundleSpillWeight bundle then
        .toSplit env (cb.headD invalidIndex)
      else
        .retry (cb.foldl evictBundle env)

/-! ## The final edit list (add_edit and the closing sort) -/

/-- Modelled from the spec: `Edit` (crate root) is either a move between two
allocations or block-parameter metadata. -/
inductive Edit where
  | move (efrom eto : Alloc)
  | blockParams (vregs : List Nat) (allocs : List Alloc)
deriving DecidableEq, Repr

/-- `Env::add_edit`: drop `Move` edits whose source equals their
destination, otherwise push `(pos.to_index(), prio, edit)`. -/
def addEdit (edits : List (Nat × InsertMovePrio × Edit)) (pos : ProgPoint)
    (prio : InsertMovePrio) (edit : Edit) : List (Nat × InsertMovePrio × Edit) :=
  match edit with
  | .move f t => if f = t then edits else edits ++ [(pos.toIndex, prio, edit)]
  | _ => edits ++ [(pos.toIndex, prio, edit)]

/-- The key order of the final
`self.edits.sort_by_key(|&(pos, prio, _)| (pos, prio))`: lexicographic on
the program-point index then the derived `InsertMovePrio` order, encoded as
`pos * 8 + prio` (the priority has six values). -/
def editLE (a b : Nat × InsertMovePrio × Edit) : Prop :=
  a.1 * 8 + a.2.1.toNat ≤ b.1 * 8 + b.2.1.toNat

instance : DecidableRel editLE := fun a b => Nat.decLe _ _

instance : IsTotal (Nat × InsertMovePrio × Edit) editLE :=
  ⟨fun a b => Nat.le_total _ _⟩

instance : IsTrans (Nat × InsertMovePrio × Edit) editLE :=
  ⟨fun a b c hab hbc => Nat.le_trans hab hbc⟩

/-- The final sort of the edit list by `(program point, priority)` (a stable
sort, as `Vec::sort_by_key`). -/
def sortEdits (edits : List (Nat × InsertMovePrio × Edit)) :
    List (Nat × InsertMovePrio × Edit) :=
  edits.insertionSort editLE

/-- Build the full edit list: fold `add_edit` over an arbitrary sequence of
insertions (every `Edit` the allocator emits goes through `add_edit`), then
sort. -/
def finalEdits (insertions : List (ProgPoint × InsertMovePrio × Edit)) :
    List (Nat × InsertMovePrio × Edit) :=
  sortEdits (insertions.foldl (fun es e => addEdit es e.1 e.2.1 e.2.2) [])

/-! ## Concrete environments for counterexamples and witnesses -/

/-- Program points 0,1,2 are `before 0`, `before 1`, `before 2` (indices
0, 2, 4).  Bundle 0 owns range 0 over `[before 0, before 2)` (key `[0,4)`);
preg 0's occupancy map holds two disjoint entries: key `[0,2)` -> range 1
(owned by bundle 1) and key `[2,4)` -> range 2 (owned by bundle 2), both
with valid vregs. -/
def envC2 : EnvRec :=
  { ranges :=
      [ { range := ⟨ProgPoint.before 0, ProgPoint.before 2⟩, vreg := 0, bundle := 0,
          usesSpillWeight := 0, uses := [], defRec := Option.none }
      , { range := ⟨ProgPoint.before 0, ProgPoint.before 1⟩, vreg := 1, bundle := 1,
          usesSpillWeight := 0, uses := [], defRec := Option.none }
      , { range := ⟨ProgPoint.before 1, ProgPoint.before 2⟩, vreg := 2, bundle := 2,
          usesSpillWeight := 0, uses := [], defRec := Option.none } ]
    bundles :=
      [ { ranges := [0], spillset := 0, allocation := .none, prio := 1,
          spillWeightAndProps := 0 }
      , { ranges := [1], spillset := 0, allocation := .reg ⟨0, .int⟩, prio := 1,
          spillWeightAndProps := 0 }
      , { ranges := [2], spillset := 0, allocation := .reg ⟨0, .int⟩, prio := 1,
          spillWeightAndProps := 0 } ]
    spillsets := [⟨1, .int, Option.none⟩]
    pregs := [ { reg := ⟨0, .int⟩, allocations := [(⟨0, 2⟩, 1), (⟨2, 4⟩, 2)] } ]
    regsByClass := [[⟨0, .int⟩], []]
    queue := []
    spilledBundles := [] }

/-- Bundle 0 has two ranges; the second range's (only) use has a `FixedReg`
policy while the first range has no def and no fixed use. -/
def envC4 : EnvRec :=
  { ranges :=
      [ { range := ⟨ProgPoint.before 0, ProgPoint.after 0⟩, vreg := 0, bundle := 0,
          usesSpillWeight := 2000, uses := [], defRec := Option.none }
      , { range := ⟨ProgPoint.before 2, ProgPoint.after 2⟩, vreg := 0, bundle := 0,
          usesSpillWeight := 2000,
          uses := [ { operand := ⟨0, .int, .useOp, .before, .fixedReg ⟨3, .int⟩⟩,
                      pos := ProgPoint.before 2, slot := 0 } ],
          defRec := Option.none } ]
    bundles :=
      [ { ranges := [0, 1], spillset := 0, allocation := .none, prio := 4,
          spillWeightAndProps := 0 } ]
    spillsets := [⟨1, .int, Option.none⟩]
    pregs := [ { reg := ⟨0, .int⟩, allocations := [] } ]
    regsByClass := [[⟨0, .int⟩], []]
    queue := []
    spilledBundles := [] }

/-- A conflict scenario for the `process_bundle` decision: bundle 0 (cached
spill weight `2^30`, not minimal) probes preg 0, which is occupied by range
1 of bundle 1 (cached spill weight 0, allocated to preg 0, priority 5). -/
def envC3W : EnvRec :=
  { ranges :=
      [ { range := ⟨ProgPoint.before 0, ProgPoint.before 1⟩, vreg := 0, bundle := 0,
          usesSpillWeight := 0, uses := [], defRec := Option.none }
      , { range := ⟨ProgPoint.before 0, ProgPoint.before 1⟩, vreg := 1, bundle := 1,
          usesSpillWeight := 0, uses := [], defRec := Option.none } ]
    bundles :=
      [ { ranges := [0], spillset := 0, allocation := .none, prio := 1,
          spillWeightAndProps := 1073741824 }
      , { ranges := [1], spillset := 0, allocation := .reg ⟨0, .int⟩, prio := 5,
          spillWeightAndProps := 0 } ]
    spillsets := [⟨1, .int, Option.none⟩]
    pregs := [ { reg := ⟨0, .int⟩, allocations := [(⟨0, 2⟩, 1)] } ]
    regsByClass := [[⟨0, .int⟩], []]
    queue := []
    spilledBundles := [] }

/-- A tiny concrete CFG used as a witness input: entry block 0 with two
successors 1 and 2 (a branch), each with a single predecessor. -/
def cfgW : CfgFunc :=
  { blockInsnsList := [[0, 1], [2], [3]]
    blockSuccsList := [[1, 2], [], []]
    blockPredsList := [[], [0], [0]]
    entryBlock := 0
    isRetList := [] }

/-! # Part 2: theorems -/

theorem liverangekey_cmp_eq_iff (a b : LiveRangeKey) :
    LiveRangeKey.cmp a b = .eq ↔ (a.kto > b.kfrom ∧ b.kto > a.kfrom) := by
  unfold LiveRangeKey.cmp
  split <;> rename_i h1
  · simp; omega
  · split <;> rename_i h2
    · simp; omega
    · simp; omega

theorem liverangekey_cmp_lt_iff (a b : LiveRangeKey) :
    LiveRangeKey.cmp a b = .lt ↔ a.kto ≤ b.kfrom := by
  unfold LiveRangeKey.cmp
  split <;> rename_i h1
  · simpa using h1
  · split <;> simp <;> omega

/-- The claim "`Greater` exactly when `a.from >= b.to`" fails on empty ranges:
for the empty range `e = [before 0, before 0)` compared with itself we have
`e.from >= e.to`, yet `cmp` answers `Less` (the `Less` test fires first). -/
theorem coderange_cmp_greater_clause_cex :
    ¬ ((CodeRange.cmp ⟨ProgPoint.before 0, ProgPoint.before 0⟩
          ⟨ProgPoint.before 0, ProgPoint.before 0⟩ = Ordering.gt) ↔
        (ProgPoint.before 0).toIndex ≥ (ProgPoint.before 0).toIndex) := by
  decide

/-- C1, amended: for *non-empty* code ranges `a` and `b` (`from < to`, which
holds for every live range the allocator builds), `CodeRange::cmp` answers
`Equal` iff the ranges overlap (in the sense of `CodeRange::overlaps`),
`Less` iff `a.to <= b.from`, and `Greater` iff `a.from >= b.to`; so the
ranges compare as ordered iff they are disjoint.  `LiveRangeKey::cmp` agrees
with `CodeRange::cmp` on the corresponding keys. -/
theorem coderange_key_cmp_ordered_iff_disjoint (a b : CodeRange)
    (ha : a.rfrom.toIndex < a.rto.toIndex) (hb : b.rfrom.toIndex < b.rto.toIndex) :
    (CodeRange.cmp a b = .eq ↔ CodeRange.overlaps a b = true) ∧
    (CodeRange.cmp a b = .lt ↔ a.rto.toIndex ≤ b.rfrom.toIndex) ∧
    (CodeRange.cmp a b = .gt ↔ a.rfrom.toIndex ≥ b.rto.toIndex) ∧
    (CodeRange.cmp a b ≠ .eq ↔ CodeRange.overlaps a b = false) ∧
    (LiveRangeKey.cmp (LiveRangeKey.fromRange a) (LiveRangeKey.fromRange b) =
      CodeRange.cmp a b) := by
  unfold CodeRange.cmp CodeRange.overlaps LiveRangeKey.cmp LiveRangeKey.fromRange
  constructor
  · split <;> rename_i h1
    · simp; omega
    · split <;> rename_i h2
      · simp; omega
      · simp; omega
  constructor
  · split <;> rename_i h1
    · simpa using h1
    · split <;> simp <;> omega
  constructor
  · split <;> rename_i h1
    · constructor
      · intro h; cases h
      · intro h; omega
    · split <;> rename_i h2
      · simpa using h2
      · simp; omega
  constructor
  · split <;> rename_i h1
    · simp; omega
    · split <;> rename_i h2
      · simp; omega
      · simp; omega
  · simp

theorem coderange_key_cmp_ordered_iff_disjoint_witness :
    (ProgPoint.before 0).toIndex < (ProgPoint.before 2).toIndex ∧
      (ProgPoint.before 1).toIndex < (ProgPoint.before 3).toIndex ∧
      (CodeRange.cmp ⟨ProgPoint.before 0, ProgPoint.before 2⟩
          ⟨ProgPoint.before 1, ProgPoint.before 3⟩ = .eq ↔
        CodeRange.overlaps ⟨ProgPoint.before 0, ProgPoint.before 2⟩
          ⟨ProgPoint.before 1, ProgPoint.before 3⟩ = true) :=
  ⟨by decide, by decide,
    (coderange_key_cmp_ordered_iff_disjoint
      ⟨ProgPoint.before 0, ProgPoint.before 2⟩
      ⟨ProgPoint.before 1, ProgPoint.before 3⟩ (by decide) (by decide)).1⟩

/-- C6: the algebra of `Requirement::merge`: `Any(c)` is an identity on
requirements of class `c`; `Register(c) ⊔ Fixed(p) = Fixed(p)` (same class);
`Register(c) ⊔ Register(c) = Register(c)`; `Fixed(p) ⊔ Fixed(q)` is
`Fixed(p)` iff `p = q` and `none` otherwise; and any class mismatch is
`none`. -/
theorem requirement_merge_spec :
    (∀ (c : RegClass) (r : Requirement), r.class = c →
      (Requirement.any c).merge r = some r ∧ r.merge (Requirement.any c) = some r) ∧
    (∀ (c : RegClass) (p : PReg), p.class = c →
      (Requirement.register c).merge (Requirement.fixed p) = some (Requirement.fixed p) ∧
      (Requirement.fixed p).merge (Requirement.register c) = some (Requirement.fixed p)) ∧
    (∀ c : RegClass,
      (Requirement.register c).merge (Requirement.register c) = some (Requirement.register c)) ∧
    (∀ p q : PReg,
      (Requirement.fixed p).merge (Requirement.fixed q) =
        if p = q then some (Requirement.fixed p) else none) ∧
    (∀ r1 r2 : Requirement, r1.class ≠ r2.class → r1.merge r2 = none) := by
  refine ⟨?_, ?_, ?_, ?_, ?_⟩
  · intro c r h
    cases r <;> simp_all [Requirement.merge, Requirement.class]
  · intro c p h
    simp_all [Requirement.merge, Requirement.class]
  · intro c
    simp [Requirement.merge, Requirement.class]
  · intro p q
    by_cases h : p = q
    · simp [Requirement.merge, Requirement.class, h]
    · by_cases hc : p.class = q.class <;>
        simp_all [Requirement.merge, Requirement.class]
  · intro r1 r2 h
    simp [Requirement.merge, h]

/-- C5: the recorded position of a `Use` operand: at `Before` it is
`before(inst)` and at `Both`/`After` it is `after(inst)`; however, when the
instruction has a reused-input operand (`Reuse(i)`, first such operand) and
this use is not operand `i`, the position is promoted to `after(inst)`; and
when the instruction is a branch the position is the containing block's exit
point. -/
theorem use_position_spec (ops : List Operand) (slot : Nat) (isBranch : Bool)
    (blockExit : ProgPoint) (inst : Nat) :
    (isBranch = true → usePos ops slot isBranch blockExit inst = blockExit) ∧
    (isBranch = false →
      ((∃ t, reusedInputIdx ops = some t ∧ t ≠ slot) →
        usePos ops slot isBranch blockExit inst = ProgPoint.after inst) ∧
      ((∀ t, reusedInputIdx ops = some t → t = slot) →
        (((ops.getD slot default).pos = .before →
            usePos ops slot isBranch blockExit inst = ProgPoint.before inst) ∧
          ((ops.getD slot default).pos = .both ∨ (ops.getD slot default).pos = .after →
            usePos ops slot isBranch blockExit inst = ProgPoint.after inst)))) := by
  refine ⟨?_, ?_⟩
  · intro h
    simp [usePos, h]
  · intro h
    refine ⟨?_, ?_⟩
    · rintro ⟨t, ht, hne⟩
      simp [usePos, h, ht, hne]
    · intro hcompat
      cases hru : reusedInputIdx ops with
      | none =>
        refine ⟨?_, ?_⟩
        · intro hpos
          simp only [List.getD, List.get?_eq_getElem?] at hpos
          simp [usePos, h, hru, hpos]
        · rintro (hpos | hpos) <;>
            (simp only [List.getD, List.get?_eq_getElem?] at hpos; simp [usePos, h, hru, hpos])
      | some t =>
        have := hcompat t hru
        subst this
        refine ⟨?_, ?_⟩
        · intro hpos
          simp only [List.getD, List.get?_eq_getElem?] at hpos
          simp [usePos, h, hru, hpos]
        · rintro (hpos | hpos) <;>
            (simp only [List.getD, List.get?_eq_getElem?] at hpos; simp [usePos, h, hru, hpos])

theorem use_position_spec_witness :
    usePos [⟨0, .int, .useOp, .before, .reg⟩] 0 false (ProgPoint.before 9) 3 =
      ProgPoint.before 3 :=
  (((use_position_spec [⟨0, .int, .useOp, .before, .reg⟩] 0 false (ProgPoint.before 9) 3).2
      rfl).2 (fun t ht => by simp [reusedInputIdx] at ht)).1 (by decide)

/-- C7: edge-move placement: with
`from_outs = |succs(from)| + (is_ret(from_last) ? 1 : 0)` and
`to_ins = |preds(to)| + (is_entry(to) ? 1 : 0)`, moves go at
`after(from_last_insn)` with `OutEdgeMoves` when `to_ins > 1` and
`from_outs <= 1`; else at `before(to_first_insn)` with `InEdgeMoves` when
`to_ins <= 1`; otherwise (critical edge) the allocator fails fatally. -/
theorem edge_move_placement_spec (f : CfgFunc) (fromBlock toBlock : Nat) :
    ((f.blockPreds toBlock).length + (if f.entryBlock = toBlock then 1 else 0) > 1 ∧
        (f.blockSuccs fromBlock).length +
          (if f.isRet ((f.blockInsns fromBlock).getLastD 0) then 1 else 0) ≤ 1 →
      edgeMovePlacement f fromBlock toBlock =
        some (ProgPoint.after ((f.blockInsns fromBlock).getLastD 0),
          InsertMovePrio.outEdgeMoves)) ∧
    ((f.blockPreds toBlock).length + (if f.entryBlock = toBlock then 1 else 0) ≤ 1 →
      edgeMovePlacement f fromBlock toBlock =
        some (ProgPoint.before ((f.blockInsns toBlock).headD 0),
          InsertMovePrio.inEdgeMoves)) ∧
    ((f.blockPreds toBlock).length + (if f.entryBlock = toBlock then 1 else 0) > 1 ∧
        (f.blockSuccs fromBlock).length +
          (if f.isRet ((f.blockInsns fromBlock).getLastD 0) then 1 else 0) > 1 →
      edgeMovePlacement f fromBlock toBlock = none) := by
  refine ⟨?_, ?_, ?_⟩
  · intro h
    simp only [edgeMovePlacement]
    rw [if_pos h]
  · intro h
    simp only [edgeMovePlacement]
    rw [if_neg (by omega), if_pos h]
  · intro h
    simp only [edgeMovePlacement]
    rw [if_neg (by omega), if_neg (by omega)]

theorem edge_move_placement_spec_witness :
    (cfgW.blockPreds 1).length + (if cfgW.entryBlock = 1 then 1 else 0) ≤ 1 ∧
      edgeMovePlacement cfgW 0 1 =
        some (ProgPoint.before 2, InsertMovePrio.inEdgeMoves) :=
  ⟨by decide, (edge_move_placement_spec cfgW 0 1).2.1 (by decide)⟩

theorem requirement_merge_spec_witness :
    (Requirement.register .int).class = RegClass.int ∧
      (Requirement.any RegClass.int).merge (Requirement.register .int) =
        some (Requirement.register .int) :=
  ⟨by decide,
    (requirement_merge_spec.1 RegClass.int (Requirement.register .int) (by decide)).1⟩

/-! ## List/bit helper lemmas -/

theorem getD_set_self {α} [Inhabited α] (l : List α) (i : Nat) (x : α)
    (h : i < l.length) : (l.set i x).getD i default = x := by
  simp [List.getD, List.getElem?_set_self h]

theorem getD_set_ne {α} [Inhabited α] (l : List α) (i j : Nat) (x : α)
    (h : i ≠ j) : (l.set i x).getD j default = l.getD j default := by
  simp [List.getD, List.getElem?_set_ne h]

theorem land_two_pow_bne_zero (x n : Nat) :
    (Nat.land x (2 ^ n) != 0) = x.testBit n := by
  have h : Nat.land x (2 ^ n) = x &&& 2 ^ n := rfl
  rw [h, Nat.and_two_pow]
  cases hb : x.testBit n <;> simp [hb]

theorem lor_eq_or (a b : Nat) : Nat.lor a b = a ||| b := rfl

/-- Packing then reading bit 30: the fixed flag round-trips whenever the
spill weight fits below bit 30 (the source's `debug_assert!`). -/
theorem cachedFixed_setCached (b : LiveBundleRec) (w : Nat) (m f : Bool)
    (hw : w < 2 ^ 30) :
    (setCachedSpillWeightAndProps b w m f).cachedFixed = f := by
  unfold setCachedSpillWeightAndProps LiveBundleRec.cachedFixed
  rw [land_two_pow_bne_zero]
  simp only [lor_eq_or]
  rw [Nat.testBit_or, Nat.testBit_or, Nat.testBit_lt_two_pow hw]
  cases m <;> cases f <;> simp [Nat.testBit_two_pow] <;> decide

/-! ## C4: recompute_bundle_properties and the fixed flag -/

/-- C4 counterexample: in `envC4`, live range 1 belongs to bundle 0 and its
use has a `FixedReg` policy, but `recompute_bundle_properties` leaves the
cached fixed flag clear: it inspects only the bundle's first range. -/
theorem recompute_fixed_flag_second_range_cex :
    ((recomputeBundleProperties envC4 0).bundleAt 0).cachedFixed = false ∧
    1 ∈ (envC4.bundleAt 0).ranges ∧
    (∃ u ∈ (envC4.rangeAt 1).uses, isFixedRegPolicy u.operand.policy = true) := by
  decide

/-- C4, amended: after `recompute_bundle_properties` (when the computed
spill weight fits in 30 bits, as the source `debug_assert!`s), the cached
fixed flag is set iff the bundle's FIRST range is a fixed reservation
(invalid vreg), or that range's def has `FixedReg` policy, or one of that
range's uses has `FixedReg` policy; defs and uses of later ranges in the
bundle are not consulted. -/
theorem recompute_fixed_flag_first_range_spec (env : EnvRec) (bundle : Nat)
    (hb : bundle < env.bundles.length)
    (hw : recomputeSpillWeight env bundle (recomputeMinimalFixed env bundle).1
        (recomputeMinimalFixed env bundle).2 < 2 ^ 30) :
    ((recomputeBundleProperties env bundle).bundleAt bundle).cachedFixed = true ↔
      (idxIsValid
          (env.rangeAt ((env.bundleAt bundle).ranges.headD invalidIndex)).vreg = false ∨
       (∃ d, (env.rangeAt ((env.bundleAt bundle).ranges.headD invalidIndex)).defRec =
            some d ∧ isFixedRegPolicy d.operand.policy = true) ∨
       (∃ u ∈ (env.rangeAt ((env.bundleAt bundle).ranges.headD invalidIndex)).uses,
          isFixedRegPolicy u.operand.policy = true)) := by
  have h1 : (recomputeBundleProperties env bundle).bundleAt bundle =
      setCachedSpillWeightAndProps (env.bundleAt bundle)
        (recomputeSpillWeight env bundle (recomputeMinimalFixed env bundle).1
          (recomputeMinimalFixed env bundle).2)
        (recomputeMinimalFixed env bundle).1 (recomputeMinimalFixed env bundle).2 := by
    unfold recomputeBundleProperties EnvRec.bundleAt
    exact getD_set_self _ _ _ hb
  rw [h1, cachedFixed_setCached _ _ _ _ hw]
  unfold recomputeMinimalFixed
  cases hv : idxIsValid
      (env.rangeAt ((env.bundleAt bundle).ranges.headD invalidIndex)).vreg
  · simp only [hv, Bool.not_false, if_pos]
    simp
  · simp only [hv, Bool.not_true, Bool.false_eq_true, if_false]
    cases hd : (env.rangeAt ((env.bundleAt bundle).ranges.headD invalidIndex)).defRec with
    | none =>
      simp [hd, List.any_eq_true]
    | some d =>
      cases hf : isFixedRegPolicy d.operand.policy <;>
        simp [hd, hf, List.any_eq_true]

/-! ## C2: try_to_allocate_bundle_to_reg results -/

theorem keyCmp_eq_symm (a b : LiveRangeKey) :
    LiveRangeKey.cmp a b = .eq ↔ LiveRangeKey.cmp b a = .eq := by
  rw [liverangekey_cmp_eq_iff, liverangekey_cmp_eq_iff]
  omega

theorem beqOrd_iff (o : Ordering) : (o == Ordering.eq) = true ↔ o = Ordering.eq := by
  cases o <;> decide

theorem btreeGet_eq_none_iff (m : List (LiveRangeKey × Nat)) (k : LiveRangeKey) :
    btreeGet m k = Option.none ↔ ∀ e ∈ m, LiveRangeKey.cmp k e.1 ≠ .eq := by
  unfold btreeGet
  constructor
  · intro h e he hcmp
    cases hf : m.find? (fun e => LiveRangeKey.cmp k e.1 == .eq) with
    | some x => simp [hf] at h
    | none =>
      exact List.find?_eq_none.mp hf e he ((beqOrd_iff _).mpr hcmp)
  · intro h
    have hf : m.find? (fun e => LiveRangeKey.cmp k e.1 == .eq) = none := by
      rw [List.find?_eq_none]
      intro e he hbeq
      exact h e he ((beqOrd_iff _).mp hbeq)
    rw [hf]
    rfl

theorem btreeGet_some_mem (m : List (LiveRangeKey × Nat)) (k : LiveRangeKey)
    (v : Nat) (h : btreeGet m k = some v) :
    ∃ e ∈ m, LiveRangeKey.cmp k e.1 = .eq ∧ e.2 = v := by
  unfold btreeGet at h
  cases hf : m.find? (fun e => LiveRangeKey.cmp k e.1 == .eq) with
  | none => rw [hf] at h; cases h
  | some e =>
    have hm := List.mem_of_find?_eq_some hf
    have hfind := List.find?_some hf
    have hp : LiveRangeKey.cmp k e.1 = .eq := (beqOrd_iff _).mp hfind
    have h2 : e.2 = v := by
      rw [hf] at h
      simpa using h
    exact ⟨e, hm, hp, h2⟩

/-- `scanConflicts` only appends to the accumulator. -/
theorem scanConflicts_prefix (env : EnvRec) (m : List (LiveRangeKey × Nat)) :
    ∀ (l acc cs : List Nat), scanConflicts env m l acc = some cs → acc <+: cs := by
  intro l
  induction l with
  | nil =>
    intro acc cs h
    simp only [scanConflicts] at h
    cases h
    exact List.prefix_refl _
  | cons ri rest ih =>
    intro acc cs h
    simp only [scanConflicts] at h
    cases hget : btreeGet m (LiveRangeKey.fromRange (env.rangeAt ri).range) with
    | none =>
      simp only [hget] at h
      exact ih acc cs h
    | some pregRange =>
      simp only [hget] at h
      cases hv : idxIsValid (env.rangeAt pregRange).vreg with
      | false => simp [hv] at h
      | true =>
        simp only [hv, if_true] at h
        by_cases hc : acc.contains (env.rangeAt pregRange).bundle
        · rw [if_pos hc] at h
          exact ih acc cs h
        · rw [if_neg hc] at h
          exact List.IsPrefix.trans ⟨[(env.rangeAt pregRange).bundle], rfl⟩ (ih _ cs h)

/-- If every range of the scanned list has no overlapping entry in the map,
the scan returns the accumulator unchanged. -/
theorem scanConflicts_all_none (env : EnvRec) (m : List (LiveRangeKey × Nat)) :
    ∀ (l acc : List Nat),
      (∀ ri ∈ l, btreeGet m (LiveRangeKey.fromRange (env.rangeAt ri).range) = Option.none) →
      scanConflicts env m l acc = some acc := by
  intro l
  induction l with
  | nil => intro acc _; simp [scanConflicts]
  | cons ri rest ih =>
    intro acc h
    have hri := h ri (by simp)
    simp only [scanConflicts, hri]
    exact ih acc (fun r hr => h r (by simp [hr]))

/-- If the scan returns the empty conflict list, the accumulator was empty
and no scanned range overlaps any entry of the map. -/
theorem scanConflicts_some_nil (env : EnvRec) (m : List (LiveRangeKey × Nat)) :
    ∀ (l acc : List Nat), scanConflicts env m l acc = some [] →
      acc = [] ∧
      ∀ ri ∈ l, btreeGet m (LiveRangeKey.fromRange (env.rangeAt ri).range) = Option.none := by
  intro l
  induction l with
  | nil =>
    intro acc h
    simp only [scanConflicts] at h
    cases h
    exact ⟨rfl, by simp⟩
  | cons ri rest ih =>
    intro acc h
    simp only [scanConflicts] at h
    cases hget : btreeGet m (LiveRangeKey.fromRange (env.rangeAt ri).range) with
    | none =>
      simp only [hget] at h
      obtain ⟨hacc, hall⟩ := ih acc h
      refine ⟨hacc, ?_⟩
      intro r hr
      rcases List.mem_cons.mp hr with hr | hr
      · subst hr; exact hget
      · exact hall r hr
    | some pregRange =>
      simp only [hget] at h
      cases hv : idxIsValid (env.rangeAt pregRange).vreg with
      | false => simp [hv] at h
      | true =>
        simp only [hv, if_true] at h
        exfalso
        by_cases hc : acc.contains (env.rangeAt pregRange).bundle
        · rw [if_pos hc] at h
          obtain ⟨hacc, -⟩ := ih _ h
          subst hacc
          simp at hc
        · rw [if_neg hc] at h
          obtain ⟨hacc, -⟩ := ih _ h
          exact absurd hacc (by simp)

/-- Provenance of the conflict list: every bundle the scan reports was
already accumulated or owns a map entry overlapping one of the scanned
ranges (with a valid vreg). -/
theorem scanConflicts_provenance (env : EnvRec) (m : List (LiveRangeKey × Nat)) :
    ∀ (l acc cs : List Nat), scanConflicts env m l acc = some cs →
      ∀ b ∈ cs, b ∈ acc ∨
        ∃ ri ∈ l, ∃ e ∈ m,
          LiveRangeKey.cmp (LiveRangeKey.fromRange (env.rangeAt ri).range) e.1 = .eq ∧
          idxIsValid (env.rangeAt e.2).vreg = true ∧ (env.rangeAt e.2).bundle = b := by
  intro l
  induction l with
  | nil =>
    intro acc cs h b hb
    simp only [scanConflicts] at h
    cases h
    exact Or.inl hb
  | cons ri rest ih =>
    intro acc cs h b hb
    simp only [scanConflicts] at h
    cases hget : btreeGet m (LiveRangeKey.fromRange (env.rangeAt ri).range) with
    | none =>
      simp only [hget] at h
      rcases ih acc cs h b hb with hl | ⟨r, hr, e, he, h1, h2, h3⟩
      · exact Or.inl hl
      · exact Or.inr ⟨r, by simp [hr], e, he, h1, h2, h3⟩
    | some pregRange =>
      simp only [hget] at h
      cases hv : idxIsValid (env.rangeAt pregRange).vreg with
      | false => simp [hv] at h
      | true =>
        simp only [hv, if_true] at h
        have hprov : b ∈ acc ++ [(env.rangeAt pregRange).bundle] ∨
            ∃ r ∈ rest, ∃ e ∈ m,
              LiveRangeKey.cmp (LiveRangeKey.fromRange (env.rangeAt r).range) e.1 = .eq ∧
              idxIsValid (env.rangeAt e.2).vreg = true ∧ (env.rangeAt e.2).bundle = b := by
          by_cases hc : acc.contains (env.rangeAt pregRange).bundle
          · rw [if_pos hc] at h
            rcases ih acc cs h b hb with hl | hr
            · exact Or.inl (by simp [hl])
            · exact Or.inr hr
          · rw [if_neg hc] at h
            exact ih _ cs h b hb
        rcases hprov with hl | ⟨r, hr, e, he, h1, h2, h3⟩
        · rcases List.mem_append.mp hl with hl | hl
          · exact Or.inl hl
          · obtain ⟨e, he, h1, h2⟩ :=
              btreeGet_some_mem m (LiveRangeKey.fromRange (env.rangeAt ri).range) _ hget
            simp only [List.mem_singleton] at hl
            subst hl
            exact Or.inr ⟨ri, by simp, e, he, h1, by rw [h2]; exact hv, by rw [h2]⟩
        · exact Or.inr ⟨r, by simp [hr], e, he, h1, h2, h3⟩

/-- The scan\'s conflict list never acquires duplicates. -/
theorem scanConflicts_nodup (env : EnvRec) (m : List (LiveRangeKey × Nat)) :
    ∀ (l acc cs : List Nat), acc.Nodup → scanConflicts env m l acc = some cs →
      cs.Nodup := by
  intro l
  induction l with
  | nil =>
    intro acc cs hnd h
    simp only [scanConflicts] at h
    cases h
    exact hnd
  | cons ri rest ih =>
    intro acc cs hnd h
    simp only [scanConflicts] at h
    cases hget : btreeGet m (LiveRangeKey.fromRange (env.rangeAt ri).range) with
    | none =>
      simp only [hget] at h
      exact ih acc cs hnd h
    | some pregRange =>
      simp only [hget] at h
      cases hv : idxIsValid (env.rangeAt pregRange).vreg with
      | false => simp [hv] at h
      | true =>
        simp only [hv, if_true] at h
        by_cases hc : acc.contains (env.rangeAt pregRange).bundle
        · rw [if_pos hc] at h
          exact ih acc cs hnd h
        · rw [if_neg hc] at h
          refine ih _ cs ?_ h
          have hmem : (env.rangeAt pregRange).bundle ∉ acc := by
            simpa using hc
          simp [List.nodup_append, hnd, hmem]

/-- A `none` scan result (the `ConflictWithFixed` path) means some scanned
range overlaps a map entry whose vreg is invalid. -/
theorem scanConflicts_none_fixed (env : EnvRec) (m : List (LiveRangeKey × Nat)) :
    ∀ (l acc : List Nat), scanConflicts env m l acc = Option.none →
      ∃ ri ∈ l, ∃ e ∈ m,
        LiveRangeKey.cmp (LiveRangeKey.fromRange (env.rangeAt ri).range) e.1 = .eq ∧
        idxIsValid (env.rangeAt e.2).vreg = false := by
  intro l
  induction l with
  | nil =>
    intro acc h
    simp [scanConflicts] at h
  | cons ri rest ih =>
    intro acc h
    simp only [scanConflicts] at h
    cases hget : btreeGet m (LiveRangeKey.fromRange (env.rangeAt ri).range) with
    | none =>
      simp only [hget] at h
      obtain ⟨r, hr, e, he, h1, h2⟩ := ih acc h
      exact ⟨r, by simp [hr], e, he, h1, h2⟩
    | some pregRange =>
      simp only [hget] at h
      cases hv : idxIsValid (env.rangeAt pregRange).vreg with
      | true =>
        simp only [hv, if_true] at h
        have hrec : ∃ r ∈ rest, ∃ e ∈ m,
            LiveRangeKey.cmp (LiveRangeKey.fromRange (env.rangeAt r).range) e.1 = .eq ∧
            idxIsValid (env.rangeAt e.2).vreg = false := by
          by_cases hc : acc.contains (env.rangeAt pregRange).bundle
          · rw [if_pos hc] at h; exact ih acc h
          · rw [if_neg hc] at h; exact ih _ h
        obtain ⟨r, hr, e, he, h1, h2⟩ := hrec
        exact ⟨r, by simp [hr], e, he, h1, h2⟩
      | false =>
        obtain ⟨e, he, h1, h2⟩ :=
          btreeGet_some_mem m (LiveRangeKey.fromRange (env.rangeAt ri).range) _ hget
        refine ⟨ri, by simp, e, he, h1, ?_⟩
        rw [h2]
        exact hv

/-- Dispatch: a `none` scan gives `ConflictWithFixed` and leaves the
environment unchanged. -/
theorem tryAlloc_eq_fixed (env : EnvRec) (bundle reg : Nat)
    (hscan : scanConflicts env (env.pregAt reg).allocations
      (env.bundleAt bundle).ranges [] = Option.none) :
    tryToAllocateBundleToReg env bundle reg = (.conflictWithFixed, env) := by
  unfold tryToAllocateBundleToReg
  simp only [hscan]

/-- Dispatch: a non-empty scan result gives `Conflict` and leaves the
environment unchanged. -/
theorem tryAlloc_eq_conflict (env : EnvRec) (bundle reg : Nat) (cs : List Nat)
    (hscan : scanConflicts env (env.pregAt reg).allocations
      (env.bundleAt bundle).ranges [] = some cs) (hne : cs ≠ []) :
    tryToAllocateBundleToReg env bundle reg = (.conflict cs, env) := by
  unfold tryToAllocateBundleToReg
  simp only [hscan]
  rw [if_pos (by cases cs with
    | nil => exact absurd rfl hne
    | cons c cs => simp)]

/-- Dispatch: an empty scan result gives `Allocated` with the success
environment. -/
theorem tryAlloc_eq_allocated (env : EnvRec) (bundle reg : Nat)
    (hscan : scanConflicts env (env.pregAt reg).allocations
      (env.bundleAt bundle).ranges [] = some []) :
    tryToAllocateBundleToReg env bundle reg =
      (.allocated (.reg (env.pregAt reg).reg), allocSuccessEnv env bundle reg) := by
  unfold tryToAllocateBundleToReg
  simp only [hscan]
  rw [if_neg (by simp)]

/-- C2 counterexample: probing preg 0 with bundle 0 in `envC2` returns the
conflict set `[1]`, although bundle 2 also owns an occupancy entry
(`[2,4) -> range 2`) overlapping bundle 0's range: the map lookup reports
only one overlapping occupant per probed range, so the claimed "set of all
overlapping bundles" is not produced. -/
theorem try_allocate_conflict_set_incomplete_cex :
    (tryToAllocateBundleToReg envC2 0 0).1 = .conflict [1] ∧
    ((⟨2, 4⟩ : LiveRangeKey), 2) ∈ (envC2.pregAt 0).allocations ∧
    LiveRangeKey.cmp (LiveRangeKey.fromRange (envC2.rangeAt 0).range) ⟨2, 4⟩ = .eq ∧
    (envC2.rangeAt 2).bundle = 2 ∧
    idxIsValid (envC2.rangeAt 2).vreg = true ∧
    0 ∈ (envC2.bundleAt 0).ranges ∧
    2 ∉ [1] := by
  decide

/-- C2, amended: `try_to_allocate_bundle_to_reg(B, r)` returns
`Allocated(Reg(r))` iff no live range of `B` overlaps any entry of `r`'s
occupancy map.  A `Conflict` result carries a non-empty, duplicate-free
list of bundles, each of which owns an occupancy entry (with valid vreg)
overlapping some range of `B` — one conflicting occupant per overlapping
range, the one found by the map lookup, not necessarily every overlapping
bundle.  A `ConflictWithFixed` result means the lookup for some range of
`B` found an overlapping entry whose vreg index is invalid (a fixed clobber
reservation). -/
theorem try_allocate_result_spec (env : EnvRec) (bundle reg : Nat) :
    ((tryToAllocateBundleToReg env bundle reg).1 =
        .allocated (.reg (env.pregAt reg).reg) ↔
      ∀ ri ∈ (env.bundleAt bundle).ranges, ∀ e ∈ (env.pregAt reg).allocations,
        LiveRangeKey.cmp (LiveRangeKey.fromRange (env.rangeAt ri).range) e.1 ≠ .eq) ∧
    (∀ cs, (tryToAllocateBundleToReg env bundle reg).1 = .conflict cs →
      cs ≠ [] ∧ cs.Nodup ∧
      ∀ b ∈ cs, ∃ ri ∈ (env.bundleAt bundle).ranges,
        ∃ e ∈ (env.pregAt reg).allocations,
          LiveRangeKey.cmp (LiveRangeKey.fromRange (env.rangeAt ri).range) e.1 = .eq ∧
          idxIsValid (env.rangeAt e.2).vreg = true ∧ (env.rangeAt e.2).bundle = b) ∧
    ((tryToAllocateBundleToReg env bundle reg).1 = .conflictWithFixed →
      ∃ ri ∈ (env.bundleAt bundle).ranges,
        ∃ e ∈ (env.pregAt reg).allocations,
          LiveRangeKey.cmp (LiveRangeKey.fromRange (env.rangeAt ri).range) e.1 = .eq ∧
          idxIsValid (env.rangeAt e.2).vreg = false) := by
  refine ⟨?_, ?_, ?_⟩
  · constructor
    · intro h
      cases hscan : scanConflicts env (env.pregAt reg).allocations
          (env.bundleAt bundle).ranges [] with
      | none =>
        rw [tryAlloc_eq_fixed env bundle reg hscan] at h
        cases h
      | some cs =>
        cases hcs : cs with
        | nil =>
          subst hcs
          obtain ⟨-, hall⟩ := scanConflicts_some_nil env _ _ _ hscan
          intro ri hri e he
          exact (btreeGet_eq_none_iff _ _).mp (hall ri hri) e he
        | cons c cs' =>
          subst hcs
          rw [tryAlloc_eq_conflict env bundle reg _ hscan (by simp)] at h
          cases h
    · intro h
      have hall : ∀ ri ∈ (env.bundleAt bundle).ranges,
          btreeGet (env.pregAt reg).allocations
            (LiveRangeKey.fromRange (env.rangeAt ri).range) = Option.none := by
        intro ri hri
        exact (btreeGet_eq_none_iff _ _).mpr (fun e he => h ri hri e he)
      have hscan := scanConflicts_all_none env (env.pregAt reg).allocations
        (env.bundleAt bundle).ranges [] hall
      rw [tryAlloc_eq_allocated env bundle reg hscan]
  · intro cs h
    cases hscan : scanConflicts env (env.pregAt reg).allocations
        (env.bundleAt bundle).ranges [] with
    | none =>
      rw [tryAlloc_eq_fixed env bundle reg hscan] at h
      cases h
    | some cs' =>
      cases hcs : cs' with
      | nil =>
        subst hcs
        rw [tryAlloc_eq_allocated env bundle reg hscan] at h
        cases h
      | cons c rest =>
        subst hcs
        rw [tryAlloc_eq_conflict env bundle reg _ hscan (by simp)] at h
        cases h
        refine ⟨by simp, ?_, ?_⟩
        · exact scanConflicts_nodup env _ _ _ _ (by simp) hscan
        · intro b hb
          rcases scanConflicts_provenance env _ _ _ _ hscan b hb with hl | hr
          · simp at hl
          · exact hr
  · intro h
    cases hscan : scanConflicts env (env.pregAt reg).allocations
        (env.bundleAt bundle).ranges [] with
    | none => exact scanConflicts_none_fixed env _ _ _ hscan
    | some cs' =>
      cases hcs : cs' with
      | nil =>
        subst hcs
        rw [tryAlloc_eq_allocated env bundle reg hscan] at h
        cases h
      | cons c rest =>
        subst hcs
        rw [tryAlloc_eq_conflict env bundle reg _ hscan (by simp)] at h
        cases h

theorem try_allocate_result_spec_witness :
    (tryToAllocateBundleToReg envC2 0 0).1 = .conflict [1] ∧
      ([1] ≠ [] ∧ ([1] : List Nat).Nodup ∧
        ∀ b ∈ [1], ∃ ri ∈ (envC2.bundleAt 0).ranges,
          ∃ e ∈ (envC2.pregAt 0).allocations,
            LiveRangeKey.cmp (LiveRangeKey.fromRange (envC2.rangeAt ri).range) e.1 = .eq ∧
            idxIsValid (envC2.rangeAt e.2).vreg = true ∧ (envC2.rangeAt e.2).bundle = b) :=
  ⟨by decide, (try_allocate_result_spec envC2 0 0).2.1 [1] (by decide)⟩

/-! ## C10: state changes of try_to_allocate_bundle_to_reg -/

theorem btreeInsert_mem_self (m : List (LiveRangeKey × Nat)) (k : LiveRangeKey)
    (v : Nat) : (k, v) ∈ btreeInsert m k v := by
  induction m with
  | nil => simp [btreeInsert]
  | cons e rest ih =>
    simp only [btreeInsert]
    cases LiveRangeKey.cmp k e.1 <;> simp [ih]

theorem btreeInsert_mem_preserved (m : List (LiveRangeKey × Nat))
    (k : LiveRangeKey) (v : Nat) (e : LiveRangeKey × Nat) (he : e ∈ m)
    (hne : LiveRangeKey.cmp k e.1 ≠ .eq) : e ∈ btreeInsert m k v := by
  induction m with
  | nil => cases he
  | cons e0 rest ih =>
    simp only [btreeInsert]
    rcases List.mem_cons.mp he with he0 | herest
    · subst he0
      cases hc : LiveRangeKey.cmp k e.1 with
      | lt => simp
      | eq => exact absurd hc hne
      | gt => simp
    · cases hc : LiveRangeKey.cmp k e0.1 <;> simp [herest, ih herest]

/-- Inserting a list of pairwise non-overlapping keys leaves every entry
that overlaps none of them in place. -/
theorem foldInsert_preserves (kf : Nat → LiveRangeKey) :
    ∀ (l : List Nat) (m : List (LiveRangeKey × Nat)) (e : LiveRangeKey × Nat),
      e ∈ m → (∀ r ∈ l, LiveRangeKey.cmp (kf r) e.1 ≠ .eq) →
      e ∈ l.foldl (fun mm r => btreeInsert mm (kf r) r) m := by
  intro l
  induction l with
  | nil => intro m e he _; simpa using he
  | cons r0 rest ih =>
    intro m e he hall
    simp only [List.foldl_cons]
    exact ih _ e (btreeInsert_mem_preserved m (kf r0) r0 e he (hall r0 (by simp)))
      (fun r hr => hall r (by simp [hr]))

/-- After inserting a list of pairwise non-overlapping keys, every inserted
`(key, value)` pair is present. -/
theorem foldInsert_mem (kf : Nat → LiveRangeKey) :
    ∀ (l : List Nat) (m : List (LiveRangeKey × Nat)) (ri : Nat), ri ∈ l →
      List.Pairwise (fun a b => LiveRangeKey.cmp (kf a) (kf b) ≠ .eq) l →
      (kf ri, ri) ∈ l.foldl (fun mm r => btreeInsert mm (kf r) r) m := by
  intro l
  induction l with
  | nil => intro m ri h _; cases h
  | cons r0 rest ih =>
    intro m ri hmem hdisj
    simp only [List.foldl_cons]
    rcases List.mem_cons.mp hmem with h0 | hrest
    · subst h0
      refine foldInsert_preserves kf rest _ _ (btreeInsert_mem_self m (kf ri) ri) ?_
      intro r hr
      have hsym := (List.pairwise_cons.mp hdisj).1 r hr
      intro hc
      exact hsym ((keyCmp_eq_symm _ _).mp hc)
    · exact ih _ ri hrest (List.pairwise_cons.mp hdisj).2

theorem setBundleAlloc_bundleAt_self (env : EnvRec) (b : Nat) (a : Alloc)
    (hb : b < env.bundles.length) :
    (setBundleAlloc env b a).bundleAt b = { env.bundleAt b with allocation := a } := by
  unfold setBundleAlloc EnvRec.bundleAt
  exact getD_set_self _ _ _ hb

theorem setBundleAlloc_bundleAt_ne (env : EnvRec) (b b2 : Nat) (a : Alloc)
    (hne : b2 ≠ b) :
    (setBundleAlloc env b a).bundleAt b2 = env.bundleAt b2 := by
  unfold setBundleAlloc EnvRec.bundleAt
  exact getD_set_ne _ _ _ _ (fun h => hne h.symm)

/-- The success environment: the probed bundle's allocation is set, every
range of the bundle is in the probed preg's occupancy map, and nothing else
changes. -/
theorem allocSuccessEnv_spec (env : EnvRec) (bundle reg : Nat)
    (hb : bundle < env.bundles.length) (hreg : reg < env.pregs.length)
    (hdisj : List.Pairwise (fun a b =>
      LiveRangeKey.cmp (LiveRangeKey.fromRange (env.rangeAt a).range)
        (LiveRangeKey.fromRange (env.rangeAt b).range) ≠ .eq)
      (env.bundleAt bundle).ranges) :
    ((allocSuccessEnv env bundle reg).bundleAt bundle).allocation =
        .reg (env.pregAt reg).reg ∧
    (∀ ri ∈ (env.bundleAt bundle).ranges,
      (LiveRangeKey.fromRange (env.rangeAt ri).range, ri) ∈
        ((allocSuccessEnv env bundle reg).pregAt reg).allocations) ∧
    (allocSuccessEnv env bundle reg).ranges = env.ranges ∧
    (allocSuccessEnv env bundle reg).spillsets = env.spillsets ∧
    (allocSuccessEnv env bundle reg).queue = env.queue ∧
    (allocSuccessEnv env bundle reg).spilledBundles = env.spilledBundles ∧
    (∀ b2, b2 ≠ bundle →
      (allocSuccessEnv env bundle reg).bundleAt b2 = env.bundleAt b2) ∧
    (∀ r2, r2 ≠ reg →
      (allocSuccessEnv env bundle reg).pregAt r2 = env.pregAt r2) := by
  have h1 : (allocSuccessEnv env bundle reg).bundleAt bundle =
      (setBundleAlloc env bundle (.reg (env.pregAt reg).reg)).bundleAt bundle := rfl
  have hranges : ((setBundleAlloc env bundle
      (.reg (env.pregAt reg).reg)).bundleAt bundle).ranges =
      (env.bundleAt bundle).ranges := by
    rw [setBundleAlloc_bundleAt_self env bundle _ hb]
  have h2 : (allocSuccessEnv env bundle reg).pregAt reg =
      { env.pregAt reg with
        allocations :=
          ((setBundleAlloc env bundle
              (.reg (env.pregAt reg).reg)).bundleAt bundle).ranges.foldl
            (fun mm ri =>
              btreeInsert mm (LiveRangeKey.fromRange (env.rangeAt ri).range) ri)
            (env.pregAt reg).allocations } := by
    unfold EnvRec.pregAt
    rw [show (allocSuccessEnv env bundle reg).pregs =
        env.pregs.set reg
          ({ env.pregAt reg with
             allocations :=
               ((setBundleAlloc env bundle
                   (.reg (env.pregAt reg).reg)).bundleAt bundle).ranges.foldl
                 (fun mm ri =>
                   btreeInsert mm (LiveRangeKey.fromRange (env.rangeAt ri).range) ri)
                 (env.pregAt reg).allocations }) from rfl]
    exact getD_set_self _ _ _ hreg
  refine ⟨?_, ?_, rfl, rfl, rfl, rfl, ?_, ?_⟩
  · rw [h1, setBundleAlloc_bundleAt_self env bundle _ hb]
  · intro ri hri
    rw [h2]
    simp only [hranges]
    exact foldInsert_mem (fun r => LiveRangeKey.fromRange (env.rangeAt r).range)
      (env.bundleAt bundle).ranges _ ri hri hdisj
  · intro b2 hb2
    have h3 : (allocSuccessEnv env bundle reg).bundleAt b2 =
        (setBundleAlloc env bundle (.reg (env.pregAt reg).reg)).bundleAt b2 := rfl
    rw [h3]
    exact setBundleAlloc_bundleAt_ne env bundle b2 _ hb2
  · intro r2 hr2
    unfold EnvRec.pregAt
    rw [show (allocSuccessEnv env bundle reg).pregs =
        env.pregs.set reg
          ({ env.pregAt reg with
             allocations :=
               ((setBundleAlloc env bundle
                   (.reg (env.pregAt reg).reg)).bundleAt bundle).ranges.foldl
                 (fun mm ri =>
                   btreeInsert mm (LiveRangeKey.fromRange (env.rangeAt ri).range) ri)
                 (env.pregAt reg).allocations }) from rfl]
    exact getD_set_ne _ reg r2 _ (fun h => hr2 h.symm)

/-- C10: `try_to_allocate_bundle_to_reg` mutates no allocator state when it
returns `Conflict` or `ConflictWithFixed`; when it returns `Allocated` it
sets exactly the probed bundle's allocation, inserts exactly the bundle's
ranges into the probed preg's occupancy map, and changes nothing else
(ranges, spillsets, queue, spilled list, other bundles, other pregs). -/
theorem try_allocate_state_on_outcome (env : EnvRec) (bundle reg : Nat)
    (hb : bundle < env.bundles.length) (hreg : reg < env.pregs.length)
    (hdisj : List.Pairwise (fun a b =>
      LiveRangeKey.cmp (LiveRangeKey.fromRange (env.rangeAt a).range)
        (LiveRangeKey.fromRange (env.rangeAt b).range) ≠ .eq)
      (env.bundleAt bundle).ranges) :
    (∀ cs, (tryToAllocateBundleToReg env bundle reg).1 = .conflict cs →
      (tryToAllocateBundleToReg env bundle reg).2 = env) ∧
    ((tryToAllocateBundleToReg env bundle reg).1 = .conflictWithFixed →
      (tryToAllocateBundleToReg env bundle reg).2 = env) ∧
    (∀ a, (tryToAllocateBundleToReg env bundle reg).1 = .allocated a →
      a = .reg (env.pregAt reg).reg ∧
      ((tryToAllocateBundleToReg env bundle reg).2.bundleAt bundle).allocation =
          .reg (env.pregAt reg).reg ∧
      (∀ ri ∈ (env.bundleAt bundle).ranges,
        (LiveRangeKey.fromRange (env.rangeAt ri).range, ri) ∈
          ((tryToAllocateBundleToReg env bundle reg).2.pregAt reg).allocations) ∧
      (tryToAllocateBundleToReg env bundle reg).2.ranges = env.ranges ∧
      (tryToAllocateBundleToReg env bundle reg).2.spillsets = env.spillsets ∧
      (tryToAllocateBundleToReg env bundle reg).2.queue = env.queue ∧
      (tryToAllocateBundleToReg env bundle reg).2.spilledBundles = env.spilledBundles ∧
      (∀ b2, b2 ≠ bundle →
        (tryToAllocateBundleToReg env bundle reg).2.bundleAt b2 = env.bundleAt b2) ∧
      (∀ r2, r2 ≠ reg →
        (tryToAllocateBundleToReg env bundle reg).2.pregAt r2 = env.pregAt r2)) := by
  refine ⟨?_, ?_, ?_⟩
  · intro cs h
    cases hscan : scanConflicts env (env.pregAt reg).allocations
        (env.bundleAt bundle).ranges [] with
    | none => rw [tryAlloc_eq_fixed env bundle reg hscan]
    | some cs' =>
      cases hcs : cs' with
      | nil =>
        subst hcs
        rw [tryAlloc_eq_allocated env bundle reg hscan] at h
        cases h
      | cons c rest =>
        subst hcs
        rw [tryAlloc_eq_conflict env bundle reg _ hscan (by simp)]
  · intro h
    cases hscan : scanConflicts env (env.pregAt reg).allocations
        (env.bundleAt bundle).ranges [] with
    | none => rw [tryAlloc_eq_fixed env bundle reg hscan]
    | some cs' =>
      cases hcs : cs' with
      | nil =>
        subst hcs
        rw [tryAlloc_eq_allocated env bundle reg hscan] at h
        cases h
      | cons c rest =>
        subst hcs
        rw [tryAlloc_eq_conflict env bundle reg _ hscan (by simp)]
  · intro a h
    cases hscan : scanConflicts env (env.pregAt reg).allocations
        (env.bundleAt bundle).ranges [] with
    | none =>
      rw [tryAlloc_eq_fixed env bundle reg hscan] at h
      cases h
    | some cs' =>
      cases hcs : cs' with
      | nil =>
        subst hcs
        have heq := tryAlloc_eq_allocated env bundle reg hscan
        rw [heq] at h ⊢
        obtain ⟨h1, h2, h3, h4, h5, h6, h7, h8⟩ :=
          allocSuccessEnv_spec env bundle reg hb hreg hdisj
        exact ⟨by cases h; rfl, h1, h2, h3, h4, h5, h6, h7, h8⟩
      | cons c rest =>
        subst hcs
        rw [tryAlloc_eq_conflict env bundle reg _ hscan (by simp)] at h
        cases h

theorem try_allocate_state_on_outcome_witness :
    (tryToAllocateBundleToReg envC2 0 0).1 = .conflict [1] ∧
      (tryToAllocateBundleToReg envC2 0 0).2 = envC2 :=
  ⟨by decide,
    (try_allocate_state_on_outcome envC2 0 0 (by decide) (by decide)
      (by decide)).1 [1] (by decide)⟩

/-! ## C3: the conflict decision in process_bundle's retry loop -/

theorem btreeRemove_sublist (m : List (LiveRangeKey × Nat)) (k : LiveRangeKey) :
    List.Sublist (btreeRemove m k) m := by
  induction m with
  | nil => simp [btreeRemove]
  | cons e rest ih =>
    simp only [btreeRemove]
    by_cases hc : LiveRangeKey.cmp k e.1 = .eq
    · rw [if_pos hc]
      exact (List.sublist_cons_self e rest)
    · rw [if_neg hc]
      exact List.Sublist.cons₂ e ih

theorem mem_btreeRemove_of_ne (m : List (LiveRangeKey × Nat)) (k : LiveRangeKey)
    (e : LiveRangeKey × Nat) (he : e ∈ m) (hne : LiveRangeKey.cmp k e.1 ≠ .eq) :
    e ∈ btreeRemove m k := by
  induction m with
  | nil => cases he
  | cons e0 rest ih =>
    simp only [btreeRemove]
    rcases List.mem_cons.mp he with he0 | herest
    · subst he0
      rw [if_neg hne]
      simp
    · by_cases hc : LiveRangeKey.cmp k e0.1 = .eq
      · rw [if_pos hc]; exact herest
      · rw [if_neg hc]; simp [ih herest]

theorem btreeGet_none_of_sublist (m m' : List (LiveRangeKey × Nat))
    (k : LiveRangeKey) (hsub : List.Sublist m' m)
    (h : btreeGet m k = Option.none) : btreeGet m' k = Option.none := by
  rw [btreeGet_eq_none_iff] at h ⊢
  exact fun e he => h e (hsub.subset he)

/-- The entry-disjointness relation on occupancy-map entries, and its
symmetry. -/
theorem entry_disjoint_symm :
    Symmetric (fun e1 e2 : LiveRangeKey × Nat => LiveRangeKey.cmp e1.1 e2.1 ≠ .eq) := by
  intro e1 e2 h hc
  exact h ((keyCmp_eq_symm _ _).mp hc)

/-- Removing a present key from a pairwise-disjoint map leaves nothing
overlapping that key (the present entry is the unique overlapping one). -/
theorem btreeGet_btreeRemove_self (m : List (LiveRangeKey × Nat))
    (k : LiveRangeKey) (v : Nat)
    (hdisj : List.Pairwise (fun e1 e2 => LiveRangeKey.cmp e1.1 e2.1 ≠ .eq) m)
    (hmem : (k, v) ∈ m) (hself : LiveRangeKey.cmp k k = .eq) :
    btreeGet (btreeRemove m k) k = Option.none := by
  induction m with
  | nil => cases hmem
  | cons e0 rest ih =>
    obtain ⟨h0, hrest⟩ := List.pairwise_cons.mp hdisj
    simp only [btreeRemove]
    by_cases hc : LiveRangeKey.cmp k e0.1 = .eq
    · rw [if_pos hc]
      rw [btreeGet_eq_none_iff]
      intro e he hce
      rcases List.mem_cons.mp hmem with hm0 | hmrest
      · have hk : e0 = (k, v) := hm0.symm
        subst hk
        exact h0 e he hce
      · have hne : LiveRangeKey.cmp e0.1 k ≠ .eq := h0 (k, v) hmrest
        exact hne ((keyCmp_eq_symm _ _).mp hc)
    · rw [if_neg hc]
      have hmrest : (k, v) ∈ rest := by
        rcases List.mem_cons.mp hmem with hm0 | hmrest
        · exfalso
          apply hc
          rw [← hm0]
          exact hself
        · exact hmrest
      rw [btreeGet_eq_none_iff]
      intro e he hce
      rcases List.mem_cons.mp he with he0 | herest
      · subst he0
        exact hc hce
      · have := (btreeGet_eq_none_iff _ _).mp (ih hrest hmrest)
        exact this e herest hce

/-- Folding `btreeRemove` over a list of keys only shrinks the map. -/
theorem removeFold_sublist (kf : Nat → LiveRangeKey) :
    ∀ (l : List Nat) (m : List (LiveRangeKey × Nat)),
      List.Sublist (l.foldl (fun mm r => btreeRemove mm (kf r)) m) m := by
  intro l
  induction l with
  | nil => intro m; simp
  | cons r0 rest ih =>
    intro m
    simp only [List.foldl_cons]
    exact (ih (btreeRemove m (kf r0))).trans (btreeRemove_sublist m (kf r0))

/-- An entry overlapping none of the removed keys survives the removal
fold. -/
theorem removeFold_mem_preserved (kf : Nat → LiveRangeKey) :
    ∀ (l : List Nat) (m : List (LiveRangeKey × Nat)) (e : LiveRangeKey × Nat),
      e ∈ m → (∀ r ∈ l, LiveRangeKey.cmp (kf r) e.1 ≠ .eq) →
      e ∈ l.foldl (fun mm r => btreeRemove mm (kf r)) m := by
  intro l
  induction l with
  | nil => intro m e he _; simpa using he
  | cons r0 rest ih =>
    intro m e he hall
    simp only [List.foldl_cons]
    exact ih _ e (mem_btreeRemove_of_ne m (kf r0) e he (hall r0 (by simp)))
      (fun r hr => hall r (by simp [hr]))

/-- Removing the keys `kf r` for all `r` in a duplicate-free list whose
entries `(kf r, r)` are all present in a pairwise-disjoint map leaves no
entry overlapping any of those keys. -/
theorem removeFold_get_none (kf : Nat → LiveRangeKey) :
    ∀ (l : List Nat) (m : List (LiveRangeKey × Nat)),
      List.Pairwise (fun e1 e2 => LiveRangeKey.cmp e1.1 e2.1 ≠ .eq) m →
      l.Nodup →
      (∀ r ∈ l, (kf r, r) ∈ m) →
      (∀ r ∈ l, LiveRangeKey.cmp (kf r) (kf r) = .eq) →
      ∀ r ∈ l, btreeGet (l.foldl (fun mm r => btreeRemove mm (kf r)) m) (kf r) =
        Option.none := by
  intro l
  induction l with
  | nil => intro m _ _ _ _ r hr; cases hr
  | cons r0 rest ih =>
    intro m hdisj hnd hpres hself r hr
    simp only [List.foldl_cons]
    have hnd0 := List.nodup_cons.mp hnd
    have hm1disj : List.Pairwise (fun e1 e2 => LiveRangeKey.cmp e1.1 e2.1 ≠ .eq)
        (btreeRemove m (kf r0)) :=
      hdisj.sublist (btreeRemove_sublist m (kf r0))
    have hpres1 : ∀ r2 ∈ rest, (kf r2, r2) ∈ btreeRemove m (kf r0) := by
      intro r2 hr2
      have hne : (kf r0, r0) ≠ (kf r2, r2) := by
        intro hcon
        have : r0 = r2 := congrArg Prod.snd hcon
        exact hnd0.1 (this ▸ hr2)
      have hrel := List.Pairwise.forall entry_disjoint_symm hdisj
        (hpres r0 (by simp)) (hpres r2 (by simp [hr2])) hne
      exact mem_btreeRemove_of_ne m (kf r0) _ (hpres r2 (by simp [hr2])) hrel
    rcases List.mem_cons.mp hr with hr0 | hrrest
    · subst hr0
      have hnone : btreeGet (btreeRemove m (kf r)) (kf r) = Option.none :=
        btreeGet_btreeRemove_self m (kf r) r hdisj (hpres r (by simp))
          (hself r (by simp))
      exact btreeGet_none_of_sublist _ _ _
        (removeFold_sublist kf rest (btreeRemove m (kf r))) hnone
    · exact ih (btreeRemove m (kf r0)) hm1disj hnd0.2 hpres1
        (fun r2 hr2 => hself r2 (by simp [hr2])) r hrrest

/-- `evict_bundle` on a register-allocated bundle, written out. -/
theorem evictBundle_eq_reg (env : EnvRec) (b : Nat) (p : PReg)
    (halloc : (env.bundleAt b).allocation = .reg p) :
    evictBundle env b =
      { setBundleAlloc env b .none with
        pregs := env.pregs.set p.index
          ({ env.pregAt p.index with
             allocations :=
               ((setBundleAlloc env b .none).bundleAt b).ranges.foldl
                 (fun mm ri =>
                   btreeRemove mm (LiveRangeKey.fromRange (env.rangeAt ri).range))
                 (env.pregAt p.index).allocations }),
        queue := env.queue ++ [(((setBundleAlloc env b .none).bundleAt b).prio, b)] } := by
  unfold evictBundle
  rw [halloc]
  rfl

/-- `evict_bundle` on a bundle without a register allocation: the early
return leaves the environment unchanged. -/
theorem evictBundle_noreg (env : EnvRec) (b : Nat)
    (h : (env.bundleAt b).allocation.isReg = false) :
    evictBundle env b = env := by
  unfold evictBundle
  cases halloc : (env.bundleAt b).allocation with
  | reg p => rw [halloc] at h; simp [Alloc.isReg] at h
  | none => rfl
  | stack s => rfl

/-- What `evict_bundle` does to the evicted bundle: allocation cleared,
re-queued at its priority, and none of its range keys overlap anything left
in the preg's occupancy map. -/
theorem evictBundle_spec (env : EnvRec) (b : Nat) (p : PReg)
    (halloc : (env.bundleAt b).allocation = .reg p)
    (hb : b < env.bundles.length)
    (hpidx : p.index < env.pregs.length)
    (hdisj : List.Pairwise (fun e1 e2 => LiveRangeKey.cmp e1.1 e2.1 ≠ .eq)
      (env.pregAt p.index).allocations)
    (hpres : ∀ ri ∈ (env.bundleAt b).ranges,
      (LiveRangeKey.fromRange (env.rangeAt ri).range, ri) ∈
        (env.pregAt p.index).allocations)
    (hself : ∀ ri ∈ (env.bundleAt b).ranges,
      LiveRangeKey.cmp (LiveRangeKey.fromRange (env.rangeAt ri).range)
        (LiveRangeKey.fromRange (env.rangeAt ri).range) = .eq)
    (hrnd : (env.bundleAt b).ranges.Nodup) :
    ((evictBundle env b).bundleAt b).allocation = Alloc.none ∧
    ((env.bundleAt b).prio, b) ∈ (evictBundle env b).queue ∧
    (∀ ri ∈ (env.bundleAt b).ranges,
      btreeGet ((evictBundle env b).pregAt p.index).allocations
        (LiveRangeKey.fromRange (env.rangeAt ri).range) = Option.none) := by
  have hev := evictBundle_eq_reg env b p halloc
  have hsb := setBundleAlloc_bundleAt_self env b Alloc.none hb
  have hbund : (evictBundle env b).bundles = (setBundleAlloc env b Alloc.none).bundles := by
    rw [hev]
  have hq : (evictBundle env b).queue =
      env.queue ++ [(((setBundleAlloc env b Alloc.none).bundleAt b).prio, b)] := by
    rw [hev]
  have hpregs : (evictBundle env b).pregs =
      env.pregs.set p.index
        ({ env.pregAt p.index with
           allocations :=
             ((setBundleAlloc env b Alloc.none).bundleAt b).ranges.foldl
               (fun mm ri =>
                 btreeRemove mm (LiveRangeKey.fromRange (env.rangeAt ri).range))
               (env.pregAt p.index).allocations }) := by
    rw [hev]
  have hranges : ((setBundleAlloc env b Alloc.none).bundleAt b).ranges =
      (env.bundleAt b).ranges := by rw [hsb]
  refine ⟨?_, ?_, ?_⟩
  · have h1 : (evictBundle env b).bundleAt b =
        (setBundleAlloc env b Alloc.none).bundleAt b := by
      unfold EnvRec.bundleAt
      rw [hbund]
    rw [h1, hsb]
  · rw [hq, hsb]
    simp
  · intro ri hri
    have hp1 : (evictBundle env b).pregAt p.index =
        { env.pregAt p.index with
          allocations :=
            ((setBundleAlloc env b Alloc.none).bundleAt b).ranges.foldl
              (fun mm ri =>
                btreeRemove mm (LiveRangeKey.fromRange (env.rangeAt ri).range))
              (env.pregAt p.index).allocations } := by
      unfold EnvRec.pregAt
      rw [hpregs]
      exact getD_set_self _ _ _ hpidx
    rw [hp1]
    simp only [hranges]
    exact removeFold_get_none (fun r => LiveRangeKey.fromRange (env.rangeAt r).range)
      (env.bundleAt b).ranges (env.pregAt p.index).allocations hdisj hrnd hpres hself
      ri hri

/-- Frame facts about `evict_bundle`: it touches only the evicted bundle's
record, one preg's occupancy map (only shrinking it), and the queue (only
appending to it). -/
theorem evictBundle_frame (env : EnvRec) (b : Nat) :
    (evictBundle env b).ranges = env.ranges ∧
    (∀ i, (evictBundle env b).rangeAt i = env.rangeAt i) ∧
    (evictBundle env b).spillsets = env.spillsets ∧
    (evictBundle env b).spilledBundles = env.spilledBundles ∧
    (evictBundle env b).bundles.length = env.bundles.length ∧
    (evictBundle env b).pregs.length = env.pregs.length ∧
    (∀ b2, b2 ≠ b → (evictBundle env b).bundleAt b2 = env.bundleAt b2) ∧
    (∀ pe, pe ∈ env.queue → pe ∈ (evictBundle env b).queue) ∧
    (∀ pi, List.Sublist ((evictBundle env b).pregAt pi).allocations
      (env.pregAt pi).allocations) := by
  cases halloc : (env.bundleAt b).allocation with
  | reg p =>
    have hev := evictBundle_eq_reg env b p halloc
    have hbund : (evictBundle env b).bundles =
        (setBundleAlloc env b Alloc.none).bundles := by rw [hev]
    have hq : (evictBundle env b).queue =
        env.queue ++ [(((setBundleAlloc env b Alloc.none).bundleAt b).prio, b)] := by
      rw [hev]
    have hpregs : (evictBundle env b).pregs =
        env.pregs.set p.index
          ({ env.pregAt p.index with
             allocations :=
               ((setBundleAlloc env b Alloc.none).bundleAt b).ranges.foldl
                 (fun mm ri =>
                   btreeRemove mm (LiveRangeKey.fromRange (env.rangeAt ri).range))
                 (env.pregAt p.index).allocations }) := by
      rw [hev]
    refine ⟨by rw [hev]; rfl, ?_, by rw [hev]; rfl, by rw [hev]; rfl, ?_, ?_, ?_, ?_, ?_⟩
    · intro i
      unfold EnvRec.rangeAt
      rw [hev]
      rfl
    · rw [hbund]
      unfold setBundleAlloc
      simp [List.length_set]
    · rw [hpregs]
      simp [List.length_set]
    · intro b2 hb2
      have h1 : (evictBundle env b).bundleAt b2 =
          (setBundleAlloc env b Alloc.none).bundleAt b2 := by
        unfold EnvRec.bundleAt
        rw [hbund]
      rw [h1]
      exact setBundleAlloc_bundleAt_ne env b b2 _ hb2
    · intro pe hpe
      rw [hq]
      exact List.mem_append_left _ hpe
    · intro pi
      by_cases hpi : pi = p.index
      · rw [hpi]
        by_cases hlt : p.index < env.pregs.length
        · have hp1 : (evictBundle env b).pregAt p.index =
              { env.pregAt p.index with
                allocations :=
                  ((setBundleAlloc env b Alloc.none).bundleAt b).ranges.foldl
                    (fun mm ri =>
                      btreeRemove mm (LiveRangeKey.fromRange (env.rangeAt ri).range))
                    (env.pregAt p.index).allocations } := by
            unfold EnvRec.pregAt
            rw [hpregs]
            exact getD_set_self _ _ _ hlt
          rw [hp1]
          exact removeFold_sublist _ _ _
        · have hp1 : (evictBundle env b).pregAt p.index = env.pregAt p.index := by
            unfold EnvRec.pregAt
            rw [hpregs, List.set_eq_of_length_le (le_of_not_lt hlt)]
          rw [hp1]
      · have hp1 : (evictBundle env b).pregAt pi = env.pregAt pi := by
          unfold EnvRec.pregAt
          rw [hpregs]
          exact getD_set_ne _ _ _ _ (fun h => hpi h.symm)
        rw [hp1]
  | none =>
    rw [evictBundle_noreg env b (by rw [halloc]; rfl)]
    exact ⟨rfl, fun i => rfl, rfl, rfl, rfl, rfl, fun b2 _ => rfl, fun pe h => h,
      fun pi => List.Sublist.refl _⟩
  | stack s =>
    rw [evictBundle_noreg env b (by rw [halloc]; rfl)]
    exact ⟨rfl, fun i => rfl, rfl, rfl, rfl, rfl, fun b2 _ => rfl, fun pe h => h,
      fun pi => List.Sublist.refl _⟩

/-- The preg map at an index other than the evicted bundle's register is
untouched. -/
theorem evictBundle_pregAt_ne (env : EnvRec) (b : Nat) (p : PReg)
    (halloc : (env.bundleAt b).allocation = .reg p) (pi : Nat)
    (hne : pi ≠ p.index) :
    (evictBundle env b).pregAt pi = env.pregAt pi := by
  have hev := evictBundle_eq_reg env b p halloc
  have hpregs : (evictBundle env b).pregs =
      env.pregs.set p.index
        ({ env.pregAt p.index with
           allocations :=
             ((setBundleAlloc env b Alloc.none).bundleAt b).ranges.foldl
               (fun mm ri =>
                 btreeRemove mm (LiveRangeKey.fromRange (env.rangeAt ri).range))
               (env.pregAt p.index).allocations }) := by
    rw [hev]
  unfold EnvRec.pregAt
  rw [hpregs]
  exact getD_set_ne _ _ _ _ (fun h => hne h.symm)

/-- The preg map at the evicted bundle's register index, written out. -/
theorem evictBundle_pregAt_self (env : EnvRec) (b : Nat) (p : PReg)
    (halloc : (env.bundleAt b).allocation = .reg p) (hb : b < env.bundles.length)
    (hlt : p.index < env.pregs.length) :
    (evictBundle env b).pregAt p.index =
      { env.pregAt p.index with
        allocations :=
          (env.bundleAt b).ranges.foldl
            (fun mm ri =>
              btreeRemove mm (LiveRangeKey.fromRange (env.rangeAt ri).range))
            (env.pregAt p.index).allocations } := by
  have hev := evictBundle_eq_reg env b p halloc
  have hranges : ((setBundleAlloc env b Alloc.none).bundleAt b).ranges =
      (env.bundleAt b).ranges := by
    rw [setBundleAlloc_bundleAt_self env b Alloc.none hb]
  have hpregs : (evictBundle env b).pregs =
      env.pregs.set p.index
        ({ env.pregAt p.index with
           allocations :=
             ((setBundleAlloc env b Alloc.none).bundleAt b).ranges.foldl
               (fun mm ri =>
                 btreeRemove mm (LiveRangeKey.fromRange (env.rangeAt ri).range))
               (env.pregAt p.index).allocations }) := by
    rw [hev]
  unfold EnvRec.pregAt
  rw [hpregs, getD_set_self _ _ _ hlt, hranges]
  rfl

/-- Frame facts preserved by a whole fold of evictions. -/
theorem foldl_evict_frame (l : List Nat) : ∀ env : EnvRec,
    ((l.foldl evictBundle env).ranges = env.ranges) ∧
    (∀ i, (l.foldl evictBundle env).rangeAt i = env.rangeAt i) ∧
    ((l.foldl evictBundle env).bundles.length = env.bundles.length) ∧
    ((l.foldl evictBundle env).pregs.length = env.pregs.length) ∧
    (∀ b2, b2 ∉ l → (l.foldl evictBundle env).bundleAt b2 = env.bundleAt b2) ∧
    (∀ pe, pe ∈ env.queue → pe ∈ (l.foldl evictBundle env).queue) ∧
    (∀ pi, List.Sublist ((l.foldl evictBundle env).pregAt pi).allocations
      (env.pregAt pi).allocations) := by
  induction l with
  | nil =>
    intro env
    exact ⟨rfl, fun i => rfl, rfl, rfl, fun b2 _ => rfl, fun pe h => h,
      fun pi => List.Sublist.refl _⟩
  | cons b0 rest ih =>
    intro env
    obtain ⟨f1, f2, f3, f4, f5, f6, f7, f8, f9⟩ := evictBundle_frame env b0
    obtain ⟨g1, g2, g3, g4, g5, g6, g7⟩ := ih (evictBundle env b0)
    simp only [List.foldl_cons]
    refine ⟨g1.trans f1, fun i => (g2 i).trans (f2 i), g3.trans f5, g4.trans f6,
      ?_, ?_, ?_⟩
    · intro b2 hb2
      have hb2r : b2 ∉ rest := fun h => hb2 (by simp [h])
      have hb20 : b2 ≠ b0 := fun h => hb2 (by simp [h])
      exact (g5 b2 hb2r).trans (f7 b2 hb20)
    · intro pe hpe
      exact g6 pe (f8 pe hpe)
    · intro pi
      exact (g7 pi).trans (f9 pi)

/-- Evicting a whole (duplicate-free) conflict set of register-allocated
bundles clears each bundle's allocation, re-queues it at its priority, and
leaves nothing overlapping its range keys in its preg's occupancy map. -/
theorem foldl_evict_posts (cb : List Nat) :
    ∀ env : EnvRec,
      cb.Nodup →
      (∀ b ∈ cb, b < env.bundles.length) →
      (∀ b ∈ cb, ((env.bundleAt b).allocation).isReg = true) →
      (∀ b ∈ cb, (env.bundleAt b).allocation.pregIndex < env.pregs.length) →
      (∀ b ∈ cb, ∀ ri ∈ (env.bundleAt b).ranges, (env.rangeAt ri).bundle = b) →
      (∀ b ∈ cb, (env.bundleAt b).ranges.Nodup) →
      (∀ b ∈ cb, ∀ ri ∈ (env.bundleAt b).ranges,
        (LiveRangeKey.fromRange (env.rangeAt ri).range, ri) ∈
          (env.pregAt (env.bundleAt b).allocation.pregIndex).allocations) →
      (∀ b ∈ cb, ∀ ri ∈ (env.bundleAt b).ranges,
        LiveRangeKey.cmp (LiveRangeKey.fromRange (env.rangeAt ri).range)
          (LiveRangeKey.fromRange (env.rangeAt ri).range) = .eq) →
      (∀ pi, List.Pairwise (fun e1 e2 => LiveRangeKey.cmp e1.1 e2.1 ≠ .eq)
        (env.pregAt pi).allocations) →
      ∀ b ∈ cb,
        ((cb.foldl evictBundle env).bundleAt b).allocation = Alloc.none ∧
        (((env.bundleAt b).prio, b) ∈ (cb.foldl evictBundle env).queue) ∧
        (∀ ri ∈ (env.bundleAt b).ranges,
          btreeGet ((cb.foldl evictBundle env).pregAt
              (env.bundleAt b).allocation.pregIndex).allocations
            (LiveRangeKey.fromRange (env.rangeAt ri).range) = Option.none) := by
  induction cb with
  | nil => intro env _ _ _ _ _ _ _ _ _ b hb; cases hb
  | cons b0 rest ih =>
    intro env hnd hlen hreg hpidx hval hrnd hpres hself hdisj b hb
    have hnd0 := List.nodup_cons.mp hnd
    have hmem0 : b0 ∈ b0 :: rest := by simp
    obtain ⟨p, halloc⟩ : ∃ p, (env.bundleAt b0).allocation = Alloc.reg p := by
      cases hA : (env.bundleAt b0).allocation with
      | reg p => exact ⟨p, rfl⟩
      | none =>
        have := hreg b0 hmem0
        rw [hA] at this
        simp [Alloc.isReg] at this
      | stack s =>
        have := hreg b0 hmem0
        rw [hA] at this
        simp [Alloc.isReg] at this
    have hpidx0 : p.index < env.pregs.length := by
      have := hpidx b0 hmem0
      rw [halloc] at this
      exact this
    have hpres0 : ∀ ri ∈ (env.bundleAt b0).ranges,
        (LiveRangeKey.fromRange (env.rangeAt ri).range, ri) ∈
          (env.pregAt p.index).allocations := by
      intro ri hri
      have := hpres b0 hmem0 ri hri
      rw [halloc] at this
      exact this
    have hpost0 := evictBundle_spec env b0 p halloc (hlen b0 hmem0) hpidx0
      (hdisj p.index) hpres0 (hself b0 hmem0) (hrnd b0 hmem0)
    obtain ⟨f1, f2, f3, f4, f5, f6, f7, f8, f9⟩ := evictBundle_frame env b0
    have hb2ne : ∀ b2 ∈ rest, b2 ≠ b0 := by
      intro b2 h2 hcon
      exact hnd0.1 (hcon ▸ h2)
    have hbAt1 : ∀ b2 ∈ rest, (evictBundle env b0).bundleAt b2 = env.bundleAt b2 := by
      intro b2 h2
      exact f7 b2 (hb2ne b2 h2)
    have hlen1 : ∀ b2 ∈ rest, b2 < (evictBundle env b0).bundles.length := by
      intro b2 h2
      rw [f5]
      exact hlen b2 (by simp [h2])
    have hreg1 : ∀ b2 ∈ rest,
        (((evictBundle env b0).bundleAt b2).allocation).isReg = true := by
      intro b2 h2
      rw [hbAt1 b2 h2]
      exact hreg b2 (by simp [h2])
    have hpidx1 : ∀ b2 ∈ rest,
        ((evictBundle env b0).bundleAt b2).allocation.pregIndex <
          (evictBundle env b0).pregs.length := by
      intro b2 h2
      rw [hbAt1 b2 h2, f6]
      exact hpidx b2 (by simp [h2])
    have hval1 : ∀ b2 ∈ rest, ∀ ri ∈ ((evictBundle env b0).bundleAt b2).ranges,
        ((evictBundle env b0).rangeAt ri).bundle = b2 := by
      intro b2 h2 ri hri
      rw [f2 ri]
      rw [hbAt1 b2 h2] at hri
      exact hval b2 (by simp [h2]) ri hri
    have hrnd1 : ∀ b2 ∈ rest, ((evictBundle env b0).bundleAt b2).ranges.Nodup := by
      intro b2 h2
      rw [hbAt1 b2 h2]
      exact hrnd b2 (by simp [h2])
    have hself1 : ∀ b2 ∈ rest, ∀ ri ∈ ((evictBundle env b0).bundleAt b2).ranges,
        LiveRangeKey.cmp (LiveRangeKey.fromRange ((evictBundle env b0).rangeAt ri).range)
          (LiveRangeKey.fromRange ((evictBundle env b0).rangeAt ri).range) = .eq := by
      intro b2 h2 ri hri
      rw [f2 ri]
      rw [hbAt1 b2 h2] at hri
      exact hself b2 (by simp [h2]) ri hri
    have hdisj1 : ∀ pi, List.Pairwise (fun e1 e2 => LiveRangeKey.cmp e1.1 e2.1 ≠ .eq)
        ((evictBundle env b0).pregAt pi).allocations := by
      intro pi
      exact (hdisj pi).sublist (f9 pi)
    have hpres1 : ∀ b2 ∈ rest, ∀ ri ∈ ((evictBundle env b0).bundleAt b2).ranges,
        (LiveRangeKey.fromRange ((evictBundle env b0).rangeAt ri).range, ri) ∈
          ((evictBundle env b0).pregAt
            ((evictBundle env b0).bundleAt b2).allocation.pregIndex).allocations := by
      intro b2 h2 ri hri
      rw [hbAt1 b2 h2] at hri ⊢
      rw [f2 ri]
      by_cases hpi : (env.bundleAt b2).allocation.pregIndex = p.index
      · rw [hpi]
        rw [evictBundle_pregAt_self env b0 p halloc (hlen b0 hmem0) hpidx0]
        apply removeFold_mem_preserved
        · rw [← hpi]
          exact hpres b2 (by simp [h2]) ri hri
        · intro r hr
          have hrim : (LiveRangeKey.fromRange (env.rangeAt ri).range, ri) ∈
              (env.pregAt p.index).allocations := by
            rw [← hpi]
            exact hpres b2 (by simp [h2]) ri hri
          have hrm := hpres0 r hr
          have hneq : (LiveRangeKey.fromRange (env.rangeAt r).range, r) ≠
              (LiveRangeKey.fromRange (env.rangeAt ri).range, ri) := by
            intro hcon
            have hr_eq : r = ri := congrArg Prod.snd hcon
            have hv1 := hval b0 hmem0 r hr
            have hv2 := hval b2 (by simp [h2]) ri hri
            rw [hr_eq] at hv1
            rw [hv1] at hv2
            exact hb2ne b2 h2 hv2.symm
          exact List.Pairwise.forall entry_disjoint_symm (hdisj p.index) hrm hrim hneq
      · rw [evictBundle_pregAt_ne env b0 p halloc _ hpi]
        exact hpres b2 (by simp [h2]) ri hri
    simp only [List.foldl_cons]
    rcases List.mem_cons.mp hb with hb0 | hbr
    · subst hb0
      obtain ⟨F1, F2, F3, F4, F5, F6, F7⟩ := foldl_evict_frame rest (evictBundle env b)
      refine ⟨?_, ?_, ?_⟩
      · rw [F5 b hnd0.1]
        exact hpost0.1
      · exact F6 _ hpost0.2.1
      · intro ri hri
        rw [halloc]
        exact btreeGet_none_of_sublist _ _ _ (F7 p.index) (hpost0.2.2 ri hri)
    · have hposts := ih (evictBundle env b0) hnd0.2 hlen1 hreg1 hpidx1 hval1 hrnd1
        hpres1 hself1 hdisj1 b hbr
      have hbAt := hbAt1 b hbr
      refine ⟨hposts.1, ?_, ?_⟩
      · have hq := hposts.2.1
        rw [hbAt] at hq
        exact hq
      · intro ri hri
        have hri1 : ri ∈ ((evictBundle env b0).bundleAt b).ranges := by
          rw [hbAt]
          exact hri
        have hg := hposts.2.2 ri hri1
        rw [hbAt, f2 ri] at hg
        exact hg

/-- Dispatch: the `attempts >= 2 && !minimal` break of the retry loop. -/
theorem processBundleIter_split_attempts (env : EnvRec) (bundle : Nat)
    (req : Requirement) (attempts : Nat) (cb : List Nat)
    (hprobe : probeStep env bundle req = .conflictsStep cb)
    (hcond : (decide (attempts ≥ 2) && !(env.bundleAt bundle).cachedMinimal) = true) :
    processBundleIter env bundle (some req) attempts = .toSplit env invalidIndex := by
  unfold processBundleIter
  simp only [hprobe]
  rw [if_pos hcond]

/-- Dispatch: the eviction-and-retry branch of the retry loop. -/
theorem processBundleIter_evict (env : EnvRec) (bundle : Nat)
    (req : Requirement) (attempts : Nat) (cb : List Nat)
    (hprobe : probeStep env bundle req = .conflictsStep cb)
    (hcond : (decide (attempts ≥ 2) && !(env.bundleAt bundle).cachedMinimal) = false)
    (hne : cb ≠ [])
    (hW : ¬ maximumSpillWeightInBundleSet env cb ≥ env.bundleSpillWeight bundle) :
    processBundleIter env bundle (some req) attempts =
      .retry (cb.foldl evictBundle env) := by
  unfold processBundleIter
  simp only [hprobe]
  rw [if_neg (by simp [hcond]), if_neg (fun h => hne (List.isEmpty_iff.mp h)),
    if_neg hW]

/-- Dispatch: the too-heavy-to-evict break of the retry loop. -/
theorem processBundleIter_split_weight (env : EnvRec) (bundle : Nat)
    (req : Requirement) (attempts : Nat) (cb : List Nat)
    (hprobe : probeStep env bundle req = .conflictsStep cb)
    (hcond : (decide (attempts ≥ 2) && !(env.bundleAt bundle).cachedMinimal) = false)
    (hne : cb ≠ [])
    (hW : maximumSpillWeightInBundleSet env cb ≥ env.bundleSpillWeight bundle) :
    processBundleIter env bundle (some req) attempts =
      .toSplit env (cb.headD invalidIndex) := by
  unfold processBundleIter
  simp only [hprobe]
  rw [if_neg (by simp [hcond]), if_neg (fun h => hne (List.isEmpty_iff.mp h)),
    if_pos hW]

/-- C3: when a register probe of `process_bundle` fails with a non-empty
conflict set, the loop body (a) breaks to `split_and_requeue_bundle` when
this is at least the second attempt and the bundle is not cached-minimal;
otherwise (b) when the maximum cached spill weight over the conflicting
bundles is strictly below this bundle's cached spill weight, every
conflicting bundle is evicted — its allocation cleared, its ranges removed
from its preg's occupancy map, and it is re-inserted into the allocation
queue at its priority — and the loop retries on the evicted state; and
otherwise (c) it breaks to the split path carrying the first conflicting
bundle.  The hypotheses are the allocator's data-structure invariants:
valid indices, register-allocated conflicting bundles whose ranges are
recorded (with their back-references) in their preg's occupancy map, keys
non-empty, and occupancy maps pairwise non-overlapping. -/
theorem process_bundle_conflict_decision (env : EnvRec) (bundle : Nat)
    (req : Requirement) (attempts : Nat) (cb : List Nat)
    (hprobe : probeStep env bundle req = .conflictsStep cb)
    (hne : cb ≠ [])
    (hnd : cb.Nodup)
    (hlen : ∀ b ∈ cb, b < env.bundles.length)
    (hreg : ∀ b ∈ cb, ((env.bundleAt b).allocation).isReg = true)
    (hpidx : ∀ b ∈ cb, (env.bundleAt b).allocation.pregIndex < env.pregs.length)
    (hval : ∀ b ∈ cb, ∀ ri ∈ (env.bundleAt b).ranges, (env.rangeAt ri).bundle = b)
    (hrnd : ∀ b ∈ cb, (env.bundleAt b).ranges.Nodup)
    (hpres : ∀ b ∈ cb, ∀ ri ∈ (env.bundleAt b).ranges,
      (LiveRangeKey.fromRange (env.rangeAt ri).range, ri) ∈
        (env.pregAt (env.bundleAt b).allocation.pregIndex).allocations)
    (hself : ∀ b ∈ cb, ∀ ri ∈ (env.bundleAt b).ranges,
      LiveRangeKey.cmp (LiveRangeKey.fromRange (env.rangeAt ri).range)
        (LiveRangeKey.fromRange (env.rangeAt ri).range) = .eq)
    (hdisj : ∀ pi, List.Pairwise (fun e1 e2 => LiveRangeKey.cmp e1.1 e2.1 ≠ .eq)
      (env.pregAt pi).allocations) :
    (attempts ≥ 2 ∧ (env.bundleAt bundle).cachedMinimal = false →
      processBundleIter env bundle (some req) attempts = .toSplit env invalidIndex) ∧
    (¬(attempts ≥ 2 ∧ (env.bundleAt bundle).cachedMinimal = false) →
      (maximumSpillWeightInBundleSet env cb < env.bundleSpillWeight bundle →
        processBundleIter env bundle (some req) attempts =
          .retry (cb.foldl evictBundle env) ∧
        (∀ b ∈ cb,
          ((cb.foldl evictBundle env).bundleAt b).allocation = Alloc.none ∧
          (((env.bundleAt b).prio, b) ∈ (cb.foldl evictBundle env).queue) ∧
          (∀ ri ∈ (env.bundleAt b).ranges,
            btreeGet ((cb.foldl evictBundle env).pregAt
                (env.bundleAt b).allocation.pregIndex).allocations
              (LiveRangeKey.fromRange (env.rangeAt ri).range) = Option.none))) ∧
      (maximumSpillWeightInBundleSet env cb ≥ env.bundleSpillWeight bundle →
        processBundleIter env bundle (some req) attempts =
          .toSplit env (cb.headD invalidIndex))) := by
  refine ⟨?_, ?_⟩
  · rintro ⟨ha, hm⟩
    exact processBundleIter_split_attempts env bundle req attempts cb hprobe
      (by simp [ha, hm])
  · intro hnot
    have hcond : (decide (attempts ≥ 2) && !(env.bundleAt bundle).cachedMinimal) =
        false := by
      rcases not_and_or.mp hnot with h | h
      · simp [h]
      · have hM : (env.bundleAt bundle).cachedMinimal = true := by
          cases hMc : (env.bundleAt bundle).cachedMinimal
          · exact absurd hMc h
          · rfl
        simp [hM]
    refine ⟨?_, ?_⟩
    · intro hlt
      refine ⟨processBundleIter_evict env bundle req attempts cb hprobe hcond hne
        (by omega), ?_⟩
      exact foldl_evict_posts cb env hnd hlen hreg hpidx hval hrnd hpres hself hdisj
    · intro hge
      exact processBundleIter_split_weight env bundle req attempts cb hprobe hcond
        hne hge

/-- The occupancy maps of `envC3W` are pairwise non-overlapping (the only
non-empty one is a singleton). -/
theorem envC3W_disj : ∀ pi,
    List.Pairwise (fun e1 e2 : LiveRangeKey × Nat => LiveRangeKey.cmp e1.1 e2.1 ≠ .eq)
      (envC3W.pregAt pi).allocations := by
  intro pi
  cases pi with
  | zero =>
    rw [show (envC3W.pregAt 0).allocations =
      [((⟨0, 2⟩ : LiveRangeKey), 1)] from rfl]
    exact List.pairwise_singleton _ _
  | succ n =>
    have h : envC3W.pregAt (n + 1) = default := by
      unfold EnvRec.pregAt
      exact List.getD_eq_default _ _ (by simp [envC3W])
    rw [h]
    exact List.Pairwise.nil

theorem process_bundle_conflict_decision_witness :
    processBundleIter envC3W 0 (some (.register .int)) 1 =
        .retry ([1].foldl evictBundle envC3W) ∧
      (([1].foldl evictBundle envC3W).bundleAt 1).allocation = Alloc.none :=
  have h := (process_bundle_conflict_decision envC3W 0 (.register .int) 1 [1]
    (by decide) (by decide) (by decide) (by decide) (by decide) (by decide)
    (by decide) (by decide) (by decide) (by decide) envC3W_disj).2
    (by decide) |>.1 (by decide)
  ⟨h.1, (h.2 1 (by decide)).1⟩

/-! ## C8: the final edit list -/

/-- `add_edit` never records a self-move. -/
theorem addEdit_no_self (es : List (Nat × InsertMovePrio × Edit)) (pos : ProgPoint)
    (prio : InsertMovePrio) (edit : Edit)
    (h : ∀ e ∈ es, ∀ x : Alloc, e.2.2 ≠ Edit.move x x) :
    ∀ e ∈ addEdit es pos prio edit, ∀ x : Alloc, e.2.2 ≠ Edit.move x x := by
  intro e he x
  cases edit with
  | move f t =>
    simp only [addEdit] at he
    by_cases hft : f = t
    · rw [if_pos hft] at he
      exact h e he x
    · rw [if_neg hft] at he
      rcases List.mem_append.mp he with he | he
      · exact h e he x
      · simp only [List.mem_singleton] at he
        subst he
        intro hcon
        simp only [Edit.move.injEq] at hcon
        exact hft (hcon.1.trans hcon.2.symm)
  | blockParams v a =>
    simp only [addEdit] at he
    rcases List.mem_append.mp he with he | he
    · exact h e he x
    · simp only [List.mem_singleton] at he
      subst he
      intro hcon
      cases hcon

/-- Folding `add_edit` over any insertion sequence preserves the absence of
self-moves. -/
theorem foldEdits_no_self (insertions : List (ProgPoint × InsertMovePrio × Edit)) :
    ∀ es : List (Nat × InsertMovePrio × Edit),
      (∀ e ∈ es, ∀ x : Alloc, e.2.2 ≠ Edit.move x x) →
      ∀ e ∈ insertions.foldl (fun es i => addEdit es i.1 i.2.1 i.2.2) es,
        ∀ x : Alloc, e.2.2 ≠ Edit.move x x := by
  induction insertions with
  | nil => intro es h e he x; exact h e he x
  | cons i0 rest ih =>
    intro es h e he x
    simp only [List.foldl_cons] at he
    exact ih (addEdit es i0.1 i0.2.1 i0.2.2)
      (addEdit_no_self es i0.1 i0.2.1 i0.2.2 h) e he x

/-- C8: the derived `InsertMovePrio` order is
`InEdgeMoves < BlockParam < Regular < MultiFixedReg < ReusedInput <
OutEdgeMoves`; every edit list built through `add_edit` and then sorted
(`finalEdits`, the shape of the allocator's output list) is sorted by
`(program point, priority)`; and it contains no `Move` whose source equals
its destination. -/
theorem edits_sorted_no_self_moves
    (insertions : List (ProgPoint × InsertMovePrio × Edit)) :
    (InsertMovePrio.inEdgeMoves.toNat < InsertMovePrio.blockParam.toNat ∧
     InsertMovePrio.blockParam.toNat < InsertMovePrio.regular.toNat ∧
     InsertMovePrio.regular.toNat < InsertMovePrio.multiFixedReg.toNat ∧
     InsertMovePrio.multiFixedReg.toNat < InsertMovePrio.reusedInput.toNat ∧
     InsertMovePrio.reusedInput.toNat < InsertMovePrio.outEdgeMoves.toNat) ∧
    List.Pairwise
      (fun a b : Nat × InsertMovePrio × Edit =>
        a.1 < b.1 ∨ (a.1 = b.1 ∧ a.2.1.toNat ≤ b.2.1.toNat))
      (finalEdits insertions) ∧
    (∀ e ∈ finalEdits insertions, ∀ x : Alloc, e.2.2 ≠ Edit.move x x) := by
  refine ⟨by decide, ?_, ?_⟩
  · have hs := List.sorted_insertionSort editLE
      (insertions.foldl (fun es i => addEdit es i.1 i.2.1 i.2.2) [])
    unfold finalEdits sortEdits
    refine List.Pairwise.imp ?_ hs
    intro a b h
    unfold editLE at h
    have ha : a.2.1.toNat ≤ 5 := by cases a.2.1 <;> simp [InsertMovePrio.toNat]
    have hb : b.2.1.toNat ≤ 5 := by cases b.2.1 <;> simp [InsertMovePrio.toNat]
    omega
  · intro e he x
    unfold finalEdits sortEdits at he
    have hperm := List.perm_insertionSort editLE
      (insertions.foldl (fun es i => addEdit es i.1 i.2.1 i.2.2) [])
    have he2 : e ∈ insertions.foldl (fun es i => addEdit es i.1 i.2.1 i.2.2) [] :=
      hperm.mem_iff.mp he
    exact foldEdits_no_self insertions [] (by simp) e he2 x

theorem edits_sorted_no_self_moves_witness :
    ∀ e ∈ finalEdits
        [(ProgPoint.before 1, InsertMovePrio.regular,
            Edit.move (.reg ⟨0, .int⟩) (.reg ⟨0, .int⟩)),
         (ProgPoint.before 0, InsertMovePrio.inEdgeMoves,
            Edit.move (.reg ⟨0, .int⟩) (.reg ⟨1, .int⟩))],
      ∀ x : Alloc, e.2.2 ≠ Edit.move x x :=
  (edits_sorted_no_self_moves
    [(ProgPoint.before 1, InsertMovePrio.regular,
        Edit.move (.reg ⟨0, .int⟩) (.reg ⟨0, .int⟩)),
     (ProgPoint.before 0, InsertMovePrio.inEdgeMoves,
        Edit.move (.reg ⟨0, .int⟩) (.reg ⟨1, .int⟩))]).2.2

theorem recompute_fixed_flag_first_range_spec_witness :
    ((recomputeBundleProperties envC4 0).bundleAt 0).cachedFixed = true ↔
      (idxIsValid
          (envC4.rangeAt ((envC4.bundleAt 0).ranges.headD invalidIndex)).vreg = false ∨
       (∃ d, (envC4.rangeAt ((envC4.bundleAt 0).ranges.headD invalidIndex)).defRec =
            some d ∧ isFixedRegPolicy d.operand.policy = true) ∨
       (∃ u ∈ (envC4.rangeAt ((envC4.bundleAt 0).ranges.headD invalidIndex)).uses,
          isFixedRegPolicy u.operand.policy = true)) :=
  recompute_fixed_flag_first_range_spec envC4 0 (by decide) (by decide)

end RegAlloc
